import Mathlib

/-!
Verification of `mlflow/genai/evaluation/utils.py` (schema-translation glue
converting the modern GenAI evaluation dataset schema into the legacy
Agent-Evaluation schema, plus the scorer-to-legacy-metric adapter).

Modelling conventions:
* Python values stored in dataframe cells are `Value`s.  Python `dict`
  objects are mutable and aliased, so a dict is represented by a reference
  (`Value.ref a`) into an explicit `Heap` of dict contents; `dict.pop`
  mutates the heap entry in place, which makes sharing between the caller's
  dataframe and the pipeline's working copy observable.
* A pandas `DataFrame` is a list of column labels plus one association list
  (label -> cell value) per row.  `df.copy()` copies the frame structure but
  shares the cell objects, which is exactly what a Lean value copy of this
  representation does: the `Value.ref` addresses are shared.
* `Value.null` stands for both Python `None` and `NaN`.  `pd.isna` on a
  scalar cell is the scalar null test; on a list cell it is elementwise, so
  the `elif pd.isna(value):` of the flattening loop yields the unique
  element's test when the array has exactly one element and raises
  `ValueError` otherwise (`EvalError.valueError`).
* `json.loads` (used only to derive `request` from a trace payload) is an
  external stdlib decoder; the pipeline is parameterised by an arbitrary
  decoder `jsonLoads : String -> Value`.
* A `Trace` entity (from `mlflow.entities`, not part of this source file) is
  inlined into `Value.pytrace request assessments`: the serialized request
  payload together with the trace's assessment list, each assessment being
  its name paired with the value of its expectation when it carries one
  (`assessment.expectation is not None` corresponds to `Option.isSome`).
* Raising `MlflowException.invalid_parameter_value(msg)` is modelled as
  returning `Except.error (EvalError.invalidParameter msg)`; the pandas
  `IndexError` raised by `df.iloc[0]` on an empty frame is
  `EvalError.indexError`.
-/

set_option autoImplicit false

universe u

/-- A Python runtime value as it appears in dataframe cells, dict entries and
trace assessments.  Dict objects are heap references so that aliasing and
in-place mutation (`dict.pop`) are observable. -/
inductive Value where
  | null : Value
  | bool (b : Bool) : Value
  | int (n : Int) : Value
  | str (s : String) : Value
  | ref (a : Nat) : Value
  | pylist (vs : List Value) : Value
  | pytrace (request : String) (assessments : List (String × Option Value)) : Value

/-- The contents of one Python dict object: an insertion-ordered association
list.  Python dicts never hold duplicate keys; contents built by `dictInsert`
keep that invariant. -/
abbrev PyDict := List (String × Value)

/-- `isinstance(v, dict)`: in this model a dict is a heap reference. -/
def Value.isDict : Value → Bool
  | .ref _ => true
  | _ => false

/-- The address of a dict value (callers establish `isDict` first). -/
def Value.refAddr : Value → Nat
  | .ref a => a
  | _ => 0

/-- Python `d[k]` lookup (first — and, for real dicts, only — binding). -/
def dictGet {β : Type u} (d : List (String × β)) (k : String) : Option β :=
  match d with
  | [] => none
  | (k', v) :: rest => if k' = k then some v else dictGet rest k

/-- Python `d[k] = v`: replace the value in place if the key is present,
otherwise append the new binding at the end (insertion order). -/
def dictInsert {β : Type u} (d : List (String × β)) (k : String) (v : β) :
    List (String × β) :=
  match d with
  | [] => [(k, v)]
  | (k', v') :: rest =>
      if k' = k then (k', v) :: rest else (k', v') :: dictInsert rest k v

/-- Python `d.pop(k, None)`'s effect on the dict: remove the binding for `k`
(real dicts hold it at most once, so removing every occurrence agrees). -/
def removeKey {β : Type u} (d : List (String × β)) (k : String) :
    List (String × β) :=
  d.filter (fun kv => kv.1 ≠ k)

/-- Python `d.update(c)`: fold the entries of `c` into `d` left to right,
overwriting values of existing keys in place and appending new keys. -/
def dictUpdate {β : Type u} (d c : List (String × β)) : List (String × β) :=
  c.foldl (fun acc kv => dictInsert acc kv.1 kv.2) d

/-- The store of Python dict objects; `Value.ref a` points at index `a`. -/
abbrev Heap := List PyDict

/-- Read the dict object at address `a` (out-of-range reads see an empty
dict; all addresses produced by the model are in range). -/
def Heap.get (h : Heap) (a : Nat) : PyDict :=
  h.getD a []

/-- Overwrite the dict object at address `a` (in-place mutation). -/
def Heap.set (h : Heap) (a : Nat) (d : PyDict) : Heap :=
  List.set h a d

/-- A pandas DataFrame: ordered column labels and one association list per
row.  Rows of a well-formed frame bind exactly the column labels. -/
structure DataFrame where
  cols : List String
  rows : List (List (String × Value))

/-- Read a cell of a row Series by label (`row[c]`); a missing label is the
null marker, matching the `NaN` pandas fills in for absent record keys. -/
def rowGet (r : List (String × Value)) (c : String) : Value :=
  (dictGet r c).getD .null

/-- `df.iat`-style read of the cell at row index `i`, column label `c`. -/
def DataFrame.getCell (df : DataFrame) (i : Nat) (c : String) : Value :=
  rowGet (df.rows.getD i []) c

/-- `df[c] = vs`: set a whole column from a list of per-row values, adding
the column label if it is new. -/
def DataFrame.setCol (df : DataFrame) (c : String) (vs : List Value) :
    DataFrame :=
  { cols := if c ∈ df.cols then df.cols else df.cols ++ [c],
    rows := List.zipWith (fun r v => dictInsert r c v) df.rows vs }

/-- `df[c] = x`: set a whole column to one scalar value. -/
def DataFrame.setColConst (df : DataFrame) (c : String) (x : Value) :
    DataFrame :=
  { cols := if c ∈ df.cols then df.cols else df.cols ++ [c],
    rows := df.rows.map (fun r => dictInsert r c x) }

/-- `df.at[i, c] = v`: write one cell. -/
def DataFrame.setAt (df : DataFrame) (i : Nat) (c : String) (v : Value) :
    DataFrame :=
  { df with rows := df.rows.set i (dictInsert (df.rows.getD i []) c v) }

/-- `df.drop(columns=[c])`: remove every column labelled `c`. -/
def DataFrame.dropCol (df : DataFrame) (c : String) : DataFrame :=
  { cols := df.cols.filter (fun c' => c' ≠ c),
    rows := df.rows.map (fun r => r.filter (fun kv => kv.1 ≠ c)) }

/-- The column rename from `utils.py` lines 40-43:
`{"inputs": "request", "outputs": "response"}`. -/
def renameLabel (c : String) : String :=
  if c = "inputs" then "request" else if c = "outputs" then "response" else c

/-- `df.rename(columns=column_mapping)`. -/
def DataFrame.rename (df : DataFrame) : DataFrame :=
  { cols := df.cols.map renameLabel,
    rows := df.rows.map (fun r => r.map (fun kv => (renameLabel kv.1, kv.2))) }

/-- Modelled from the spec: the reserved expectation keys of
`AgentEvaluationReserverKey` (module `mlflow/genai/evaluation/constant.py`,
which is not part of this source fragment).  The spec's component design and
testable properties name `expected_response`, `expected_facts`,
`expected_retrieved_context` and `guidelines` as the reserved keys promoted
to dedicated columns. -/
def AgentEvaluationReserverKey.EXPECTED_RESPONSE : String := "expected_response"

/-- Modelled from the spec: reserved key for expected facts. -/
def AgentEvaluationReserverKey.EXPECTED_FACTS : String := "expected_facts"

/-- Modelled from the spec: reserved key for expected retrieved context. -/
def AgentEvaluationReserverKey.EXPECTED_RETRIEVED_CONTEXT : String :=
  "expected_retrieved_context"

/-- Modelled from the spec: reserved key for guidelines. -/
def AgentEvaluationReserverKey.GUIDELINES : String := "guidelines"

/-- Modelled from the spec: `AgentEvaluationReserverKey.get_all()`. -/
def AgentEvaluationReserverKey.get_all : List String :=
  [AgentEvaluationReserverKey.EXPECTED_RESPONSE,
   AgentEvaluationReserverKey.EXPECTED_FACTS,
   AgentEvaluationReserverKey.EXPECTED_RETRIEVED_CONTEXT,
   AgentEvaluationReserverKey.GUIDELINES]

/-- Modelled from the spec: the single custom-expectation bucket column
(`AGENT_EVAL_CUSTOM_EXPECTATION_KEY`, also from the missing constants
module). -/
def AGENT_EVAL_CUSTOM_EXPECTATION_KEY : String := "custom_expected"

/-- Errors the conversion can raise: `MlflowException.invalid_parameter_value`
with its message, or the pandas `IndexError` from `df.iloc[0]` on an empty
frame. -/
inductive EvalError where
  | invalidParameter (msg : String) : EvalError
  | indexError : EvalError
  | valueError : EvalError
deriving DecidableEq, Repr

/-- `utils.py` lines 49-51. -/
def listItemErrMsg : String := "Every item in the list must be a dictionary."

/-- `utils.py` lines 76-81. -/
def inputsNotDictErrMsg : String :=
  "The \x27inputs\x27 column must be a dictionary. If you want to pass a single argument to the `predict_fn`, use the argument name as the key in the dictionary. If you don\x27t pass a `predict_fn`, you can use any string key to wrap the value into a dictionary."

/-- `utils.py` lines 84-87. -/
def missingColumnErrMsg : String :=
  "Either `inputs` or `trace` column is required in the dataset. Please provide inputs for every datapoint or provide a trace."

/-- `utils.py` lines 156-159. -/
def expectationsErrMsg : String :=
  "Expectations must be a dictionary in the form of [name of expectation]: [value], e.g., `\x7b\"expectations\": \x7b\"expected_response\": \"...\"\x7d`"

/-- The serialized request payload of a trace cell (`trace.data.request`). -/
def traceRequest : Value → String
  | .pytrace req _ => req
  | _ => ""

/-- The assessment list of a trace cell (`trace.info.assessments or []`). -/
def traceAssessments : Value → List (String × Option Value)
  | .pytrace _ asmts => asmts
  | _ => []

/-- `utils.py` lines 120-124: scan one trace's assessments, collecting
`expectations[assessment.name] = assessment.expectation.value` for every
assessment whose expectation is not `None`. -/
def buildExpMap (asmts : List (String × Option Value)) : PyDict :=
  asmts.foldl
    (fun d kv =>
      match kv.2 with
      | some v => dictInsert d kv.1 v
      | none => d)
    []

/-- `utils.py` lines 97-107 (`_extract_request_from_trace`): when a `trace`
column is present and `request` is absent, add a `request` column by decoding
each trace's serialized request payload. -/
def _extract_request_from_trace (jsonLoads : String → Value) (df : DataFrame) :
    DataFrame :=
  if "trace" ∈ df.cols then
    if "request" ∈ df.cols then df
    else
      df.setCol "request"
        (df.rows.map (fun r => jsonLoads (traceRequest (rowGet r "trace"))))
  else df

/-- `utils.py` lines 110-130 (`_extract_expectations_from_trace`): when a
`trace` column is present, build the per-row expectation maps from the
traces' assessments; if every row's map is empty the column is not added,
otherwise the fresh dict objects are allocated and stored in a (new or
overwritten) `expectations` column. -/
def _extract_expectations_from_trace (h : Heap) (df : DataFrame) :
    DataFrame × Heap :=
  if "trace" ∈ df.cols then
    let ms := df.rows.map (fun r => buildExpMap (traceAssessments (rowGet r "trace")))
    if ms.all (fun m => m.isEmpty) then (df, h)
    else
      (df.setCol "expectations"
        ((List.range df.rows.length).map (fun i => Value.ref (h.length + i))),
       h ++ ms)
  else (df, h)

/-- `utils.py` lines 143-145: the inner `for field in get_all()` loop of one
row of `_convert_expectations_to_legacy_columns` — for each reserved field
present in the row's expectation dict, write it to the field's column and
`pop` it from the dict object (an in-place heap mutation). -/
def popReservedFields (i : Nat) (a : Nat) :
    List String → DataFrame × Heap → DataFrame × Heap
  | [], st => st
  | f :: fs, (df, h) =>
      let d := h.get a
      match dictGet d f with
      | some v => popReservedFields i a fs (df.setAt i f v, h.set a (removeKey d f))
      | none => popReservedFields i a fs (df, h)

mutual

/-- The number of scalar elements `np.asarray` finds in a (possibly nested)
list value: a non-list value is one scalar, a list contributes the scalars
of its elements.  `pd.isna` of a list builds such an array and tests it
elementwise. -/
def naSize : Value → Nat
  | .pylist vs => naSizeList vs
  | _ => 1

/-- Scalar count of a list of values (see `naSize`). -/
def naSizeList : List Value → Nat
  | [] => 0
  | v :: rest => naSize v + naSizeList rest

end

mutual

/-- How many of the scalars of a (possibly nested) value are the null
marker — the number of `True` entries of the elementwise `pd.isna` array. -/
def nullCount : Value → Nat
  | .null => 1
  | .pylist vs => nullCountList vs
  | _ => 0

/-- Null-marker count of a list of values (see `nullCount`). -/
def nullCountList : List Value → Nat
  | [] => 0
  | v :: rest => nullCount v + nullCountList rest

end

/-- The truth test `pd.isna(value)` undergoes in the `elif` of `utils.py`
line 150.  For a scalar value `pd.isna` returns a plain Bool — `True`
exactly for the null marker (`None`/`NaN`).  For a list value it returns an
elementwise boolean ndarray: in a boolean context a one-element array
yields its element, and any other size makes Python raise `ValueError`
(`none` here) — the multi-element case is the classic "truth value of an
array is ambiguous" error, and under current NumPy (>= 1.25) the
empty-array truth test and ragged-array construction raise `ValueError` as
well. -/
def pdIsNaTruth : Value → Option Bool
  | .null => some true
  | .pylist vs =>
      if naSizeList vs = 1 then some (nullCountList vs == 1) else none
  | _ => some false

/-- `utils.py` lines 141-159: the body of the per-row loop of
`_convert_expectations_to_legacy_columns` for the row at index `i` with
expectation cell `v`. -/
def flattenRow (st : DataFrame × Heap) (i : Nat) (v : Value) :
    Except EvalError (DataFrame × Heap) :=
  match v with
  | .ref a =>
      let st1 := popReservedFields i a AgentEvaluationReserverKey.get_all st
      let d := st1.2.get a
      .ok (if d.isEmpty then st1
           else (st1.1.setAt i AGENT_EVAL_CUSTOM_EXPECTATION_KEY (.ref a), st1.2))
  | v =>
      match pdIsNaTruth v with
      | some true => .ok st
      | some false => .error (.invalidParameter expectationsErrMsg)
      | none => .error .valueError

/-- `utils.py` line 140: `for idx, value in df["expectations"].items()`,
threading the row index and stopping at the first raising row. -/
def flattenLoop (i : Nat) (cells : List Value) (st : DataFrame × Heap) :
    Except EvalError (DataFrame × Heap) :=
  match cells with
  | [] => .ok st
  | v :: rest =>
      match flattenRow st i v with
      | .ok st' => flattenLoop (i + 1) rest st'
      | .error e => .error e

/-- `utils.py` lines 136-137: `for field in [*get_all(), CUSTOM]: df[field] =
None` — every reserved column plus the custom bucket set to null. -/
def nullInitFrame (df : DataFrame) : DataFrame :=
  (AgentEvaluationReserverKey.get_all ++ [AGENT_EVAL_CUSTOM_EXPECTATION_KEY]).foldl
    (fun d f => d.setColConst f .null) df

/-- `utils.py` lines 133-163 (`_convert_expectations_to_legacy_columns`):
when an `expectations` column exists, first set every reserved column and the
custom-expectation column to null, then flatten each row's expectation dict
(raising on a value that is neither a dict nor null), finally drop the
intermediate `expectations` column. -/
def _convert_expectations_to_legacy_columns (h : Heap) (df : DataFrame) :
    Except EvalError (DataFrame × Heap) :=
  if "expectations" ∈ df.cols then
    match flattenLoop 0
        ((nullInitFrame df).rows.map (fun r => rowGet r "expectations"))
        (nullInitFrame df, h) with
    | .ok st => .ok ((st.1.dropCol "expectations"), st.2)
    | .error e => .error e
  else .ok (df, h)

/-- `utils.py` lines 89-94: the `.rename(...).pipe(...)` tail of
`_convert_to_legacy_eval_set`. -/
def transformStages (jsonLoads : String → Value) (h : Heap) (df : DataFrame) :
    Except EvalError (DataFrame × Heap) :=
  let df1 := (_extract_request_from_trace jsonLoads df.rename)
  let st2 := _extract_expectations_from_trace h df1
  _convert_expectations_to_legacy_columns st2.2 st2.1

/-- `utils.py` lines 73-94: everything after the input has been normalised
into a pandas DataFrame — the first-row sample checks, the required-column
check, and the transformation pipeline. -/
def _convert_to_legacy_eval_set_from_df (jsonLoads : String → Value) (h : Heap)
    (df : DataFrame) : Except EvalError (DataFrame × Heap) :=
  match df.rows with
  | [] => .error .indexError
  | sample :: _ =>
      if "inputs" ∈ df.cols ∧ ¬ (rowGet sample "inputs").isDict then
        .error (.invalidParameter inputsNotDictErrMsg)
      else if ¬ ("trace" ∈ df.cols ∨ "inputs" ∈ df.cols) then
        .error (.invalidParameter missingColumnErrMsg)
      else
        transformStages jsonLoads h df

/-- `pd.DataFrame(records)` for a list of dict records: the columns are the
union of the records' keys in first-appearance order; each row binds every
column, with the null marker for keys a record lacks.  Cell values are the
shared objects stored in the record dicts. -/
def pdDataFrameOfRecords (h : Heap) (items : List Value) : DataFrame :=
  let cols := items.foldl
    (fun acc v =>
      (h.get v.refAddr).foldl
        (fun a kv => if kv.1 ∈ a then a else a ++ [kv.1]) acc)
    []
  { cols := cols,
    rows := items.map
      (fun v => cols.map (fun c => (c, rowGet (h.get v.refAddr) c))) }

/-- The two input shapes the claims exercise: a list of records or a pandas
DataFrame (the Spark branch requires the optional pyspark collaborator and
is out of scope of the claims). -/
inductive EvalData where
  | records (items : List Value) : EvalData
  | dataFrame (df : DataFrame) : EvalData

/-- `utils.py` lines 32-94 (`_convert_to_legacy_eval_set`): validate a list
input (every item must be a dict) and turn it into a DataFrame, or take a
copy of a DataFrame input (the copy shares the cell objects), then run the
sample checks and the transformation pipeline. -/
def _convert_to_legacy_eval_set (jsonLoads : String → Value) (h : Heap)
    (data : EvalData) : Except EvalError (DataFrame × Heap) :=
  match data with
  | .records items =>
      if items.all (fun v => v.isDict) then
        _convert_to_legacy_eval_set_from_df jsonLoads h (pdDataFrameOfRecords h items)
      else .error (.invalidParameter listItemErrMsg)
  | .dataFrame df =>
      _convert_to_legacy_eval_set_from_df jsonLoads h df

/-!
The scorer-to-legacy-metric adapter (`utils.py` lines 166-236).  The inner
`eval_fn` is pure glue over otherwise opaque Python objects, so it is
modelled generically: `α` is the type of opaque context values, a Python
`None`-able parameter is an `Option α`, and a `dict`-typed parameter is an
association list.  The adapter builds a merged context dictionary and calls
the scorer with the key-filtered subset; the model returns that filtered
keyword-argument dictionary, which is exactly what `scorer(**filtered)`
receives.
-/

/-- A value of the merged context dictionary: either an opaque passed-through
parameter (possibly Python `None`), or a dict-typed entry (`expectations` is
always a dict; `custom_expected` is an `Optional[dict]`). -/
inductive MergedVal (α : Type u) where
  | obj (v : Option α) : MergedVal α
  | dictObj (d : Option (List (String × α))) : MergedVal α
deriving DecidableEq

/-- The arguments `eval_fn` is invoked with (`utils.py` lines 181-195).
`kwargs` holds the extra keyword arguments beyond the declared parameters;
Python guarantees its keys differ from the declared parameter names, but can
not constrain them further. -/
structure EvalFnArgs (α : Type u) where
  request_id : Option α
  request : Option α
  response : Option α
  expected_response : Option α
  trace : Option α
  retrieved_context : Option α
  guidelines : Option α
  expected_facts : Option α
  expected_retrieved_context : Option α
  custom_expected : Option (List (String × α))
  custom_inputs : Option α
  custom_outputs : Option α
  tool_calls : Option α
  kwargs : List (String × Option α)

/-- `utils.py` lines 197-210: condense all expectations into a single dict —
insert each discrete expectation under its reserved key when it is not
`None`, then `update` with the custom-expected mapping. -/
def condenseExpectations {α : Type u} (a : EvalFnArgs α) : List (String × α) :=
  let e0 : List (String × α) := []
  let e1 := match a.expected_response with
    | some v => dictInsert e0 AgentEvaluationReserverKey.EXPECTED_RESPONSE v
    | none => e0
  let e2 := match a.expected_facts with
    | some v => dictInsert e1 AgentEvaluationReserverKey.EXPECTED_FACTS v
    | none => e1
  let e3 := match a.expected_retrieved_context with
    | some v => dictInsert e2 AgentEvaluationReserverKey.EXPECTED_RETRIEVED_CONTEXT v
    | none => e2
  let e4 := match a.guidelines with
    | some v => dictInsert e3 AgentEvaluationReserverKey.GUIDELINES v
    | none => e3
  match a.custom_expected with
  | some c => dictUpdate e4 c
  | none => e4

/-- `utils.py` lines 213-226: the twelve fixed entries of the merged context
dictionary literal, in source order. -/
def mergedBase {α : Type u} (a : EvalFnArgs α) : List (String × MergedVal α) :=
    [("inputs", .obj a.request),
     ("outputs", .obj a.response),
     ("expectations", .dictObj (some (condenseExpectations a))),
     ("trace", .obj a.trace),
     ("guidelines", .obj a.guidelines),
     ("retrieved_context", .obj a.retrieved_context),
     ("expected_facts", .obj a.expected_facts),
     ("expected_retrieved_context", .obj a.expected_retrieved_context),
     ("custom_expected", .dictObj a.custom_expected),
     ("custom_inputs", .obj a.custom_inputs),
     ("custom_outputs", .obj a.custom_outputs),
     ("tool_calls", .obj a.tool_calls)]

/-- `utils.py` lines 213-227: the merged context dictionary literal — the
twelve fixed entries, then the extra keyword arguments folded in (which, per
Python dict-literal semantics, overwrite the value in place on a key
collision and append otherwise). -/
def mergedContext {α : Type u} (a : EvalFnArgs α) : List (String × MergedVal α) :=
  a.kwargs.foldl (fun acc kv => dictInsert acc kv.1 (.obj kv.2)) (mergedBase a)

/-- `utils.py` lines 228-231: filter the merged context to the parameters
the scorer declares and call `scorer(**filtered)`; the returned dictionary
is the scorer's keyword-argument binding. -/
def filteredScorerArgs {α : Type u} (a : EvalFnArgs α)
    (scorerParams : List String) : List (String × MergedVal α) :=
  (mergedContext a).filter (fun kv => kv.1 ∈ scorerParams)

/-- The last value bound to `k` by the entry list `c` (python's "later entry
wins" update semantics), used to specify `dictUpdate` and `buildExpMap`. -/
def lastVal {β : Type u} (c : List (String × β)) (k : String) : Option β :=
  c.foldl (fun acc kv => if kv.1 = k then some kv.2 else acc) none

/-- The reserved keys removed from a row's expectation dict by the
`value.pop(field, None)` calls of the flattening loop. -/
def popAllReserved (d : PyDict) : PyDict :=
  AgentEvaluationReserverKey.get_all.foldl (fun d' f => removeKey d' f) d

/-- Keys removed one by one, generalising `popAllReserved` to any key list. -/
def removeKeys {β : Type u} (d : List (String × β)) (fs : List String) :
    List (String × β) :=
  fs.foldl (fun d' f => removeKey d' f) d

/-- The pure effect of the `for field in get_all()` loop of one flattening
row on the dataframe: each field present in the row's expectation dict `d`
is written to the cell at row `i`, column `field`. -/
def popDF (fs : List String) (d : PyDict) (i : Nat) (df : DataFrame) :
    DataFrame :=
  fs.foldl
    (fun dfa f =>
      match dictGet d f with
      | some v => dfa.setAt i f v
      | none => dfa)
    df

/-- The claim's reading of the condensed expectations dictionary: insert the
four discrete expectation parameters in order, each under its reserved key
and only when non-null, then update with the custom-expected mapping. -/
def optInsert {α : Type u} (d : List (String × α)) (k : String)
    (v : Option α) : List (String × α) :=
  match v with
  | some x => dictInsert d k x
  | none => d

/-- The expectations dictionary as claim C4 words it. -/
def claimExpectations {α : Type u} (a : EvalFnArgs α) : List (String × α) :=
  dictUpdate
    (optInsert
      (optInsert
        (optInsert
          (optInsert [] "expected_response" a.expected_response)
          "expected_facts" a.expected_facts)
        "expected_retrieved_context" a.expected_retrieved_context)
      "guidelines" a.guidelines)
    (a.custom_expected.getD [])

/-- A concrete stand-in for `json.loads` used when the theorems are
instantiated at closed inputs (the pipeline under scrutiny never inspects
the decoded value in those instances). -/
def sampleDecoder : String → Value := fun s => Value.str s

/-- An already-normalized single-row dataset: `request`/`response` columns,
no `inputs`, `trace` or `expectations`. -/
def c1df : DataFrame :=
  ⟨["request", "response"],
   [[("request", Value.str "hello"), ("response", Value.str "world")]]⟩

/-- A heap with the caller's `inputs` dict at address 0 and the caller's
per-row `expectations` dict at address 1. -/
def c3heap : Heap :=
  [[("q", Value.str "hi")], [("expected_response", Value.str "x")]]

/-- A caller DataFrame whose `expectations` cell references the caller's
dict object at heap address 1. -/
def c3df : DataFrame :=
  ⟨["inputs", "expectations"],
   [[("inputs", Value.ref 0), ("expectations", Value.ref 1)]]⟩

/-- A single-row frame whose trace carries one kept assessment and one
assessment with a null expectation. -/
def c5df : DataFrame :=
  ⟨["trace"],
   [[("trace", Value.pytrace "r"
      [("expected_response", some (Value.str "yes")), ("skipped", none)])]]⟩

/-- A two-row frame whose traces both carry an `expected_response = "yes"`
assessment (the first also an extra custom one). -/
def c6df : DataFrame :=
  ⟨["trace"],
   [[("trace", Value.pytrace "r0"
      [("expected_response", some (Value.str "yes")), ("extra", some (Value.int 7))])],
    [("trace", Value.pytrace "r1"
      [("expected_response", some (Value.str "yes"))])]]⟩

/-- A frame whose only expectation value is an integer — neither a dict nor
a null marker. -/
def c7df : DataFrame :=
  ⟨["expectations"], [[("expectations", Value.int 3)]]⟩

/-- A frame whose only expectation value is a two-element list: `pd.isna`
of it is a two-element boolean array, whose truth test raises
`ValueError`. -/
def c7listdf : DataFrame :=
  ⟨["expectations"],
   [[("expectations", Value.pylist [Value.int 1, Value.int 2])]]⟩

/-- Adapter arguments with every declared parameter `None` and no extra
keyword arguments (over opaque values modelled as `Nat`). -/
def argsAllNone : EvalFnArgs Nat :=
  ⟨none, none, none, none, none, none, none, none, none, none, none, none,
   none, []⟩

/-- Adapter arguments whose extra keyword arguments bind `expectations` to
Python `None`, shadowing the condensed expectations dict in the merged
context literal. -/
def kwargsNoneArgs : EvalFnArgs Nat :=
  { argsAllNone with kwargs := [("expectations", none)] }

/-- Adapter arguments with a discrete expected response and a custom
expectation colliding with the reserved `expected_response` key. -/
def c4args : EvalFnArgs Nat :=
  { argsAllNone with
    expected_response := some 1,
    custom_expected := some [("expected_response", 5), ("k", 2)] }

/-- The entries actually inserted by the assessment scan: name/value pairs of
exactly the assessments carrying a non-null expectation, in order. -/
def presentExpectations (asmts : List (String × Option Value)) : PyDict :=
  asmts.filterMap (fun kv => kv.2.map (fun v => (kv.1, v)))

/-- The dataframe produced by one flattening row for the dict at `d`: the
reserved fields present in `d` written to their columns, and the custom
bucket set to the (still shared) dict object when keys remain after the
pops. -/
def flattenRowDF (d : PyDict) (i a : Nat) (df : DataFrame) : DataFrame :=
  if (popAllReserved d).isEmpty then popDF AgentEvaluationReserverKey.get_all d i df
  else (popDF AgentEvaluationReserverKey.get_all d i df).setAt i
    AGENT_EVAL_CUSTOM_EXPECTATION_KEY (.ref a)

section DictLemmas

variable {β : Type u}

theorem dictGet_dictInsert (d : List (String × β)) (k n : String) (v : β) :
    dictGet (dictInsert d k v) n = if n = k then some v else dictGet d n := by
  induction d with
  | nil =>
      by_cases hn : n = k
      · subst hn
        simp [dictInsert, dictGet]
      · have hk : ¬ k = n := fun h => hn h.symm
        simp [dictInsert, dictGet, hn, hk]
  | cons kv rest ih =>
      obtain ⟨k', v'⟩ := kv
      by_cases hk : k' = k
      · subst hk
        by_cases hn : n = k'
        · subst hn
          simp [dictInsert, dictGet]
        · have hn2 : ¬ k' = n := fun h => hn h.symm
          simp [dictInsert, dictGet, hn, hn2]
      · by_cases hn : k' = n
        · subst hn
          simp [dictInsert, dictGet, hk]
        · simp [dictInsert, dictGet, hk, hn, ih]

theorem dictGet_removeKey (d : List (String × β)) (k n : String) :
    dictGet (removeKey d k) n = if n = k then none else dictGet d n := by
  induction d with
  | nil => simp [removeKey, dictGet]
  | cons kv rest ih =>
      obtain ⟨k', v'⟩ := kv
      by_cases hk : k' = k <;> by_cases hn : k' = n <;>
        simp_all [removeKey, dictGet]

theorem removeKey_eq_self_of_not_mem (d : List (String × β)) (k : String)
    (h : dictGet d k = none) : removeKey d k = d := by
  induction d with
  | nil => rfl
  | cons kv rest ih =>
      obtain ⟨k', v'⟩ := kv
      by_cases hk : k' = k
      · simp [dictGet, hk] at h
      · simp [dictGet, hk] at h
        simp [removeKey, hk] at ih ⊢
        exact ih h

theorem mem_of_dictGet_some {d : List (String × β)} {k : String} {v : β}
    (h : dictGet d k = some v) : (k, v) ∈ d := by
  induction d with
  | nil => simp [dictGet] at h
  | cons kv rest ih =>
      obtain ⟨k', v'⟩ := kv
      by_cases hk : k' = k
      · subst hk
        simp [dictGet] at h
        simp [h]
      · simp [dictGet, hk] at h
        exact List.mem_cons_of_mem _ (ih h)

theorem dictGet_eq_of_mem_nodup {d : List (String × β)} {k : String} {v : β}
    (hmem : (k, v) ∈ d) (hnd : (d.map Prod.fst).Nodup) :
    dictGet d k = some v := by
  induction d with
  | nil => simp at hmem
  | cons kv rest ih =>
      obtain ⟨k', v'⟩ := kv
      simp only [List.map_cons, List.nodup_cons] at hnd
      rcases List.mem_cons.mp hmem with heq | hmem'
      · cases heq
        simp [dictGet]
      · have hk : k' ≠ k := by
          intro hkk
          subst hkk
          exact hnd.1 (List.mem_map.mpr ⟨(k', v), hmem', rfl⟩)
        simp [dictGet, hk]
        exact ih hmem' hnd.2

theorem keys_dictInsert (d : List (String × β)) (k : String) (v : β) :
    (dictInsert d k v).map Prod.fst =
      if k ∈ d.map Prod.fst then d.map Prod.fst else d.map Prod.fst ++ [k] := by
  induction d with
  | nil => simp [dictInsert]
  | cons kv rest ih =>
      obtain ⟨k', v'⟩ := kv
      by_cases hk : k' = k
      · subst hk
        simp [dictInsert]
      · have hk2 : ¬ k = k' := fun h => hk h.symm
        by_cases hmem : k ∈ rest.map Prod.fst <;>
          simp [dictInsert, hk, ih, hk2, hmem]

theorem mem_keys_dictInsert_of_mem {d : List (String × β)} {c k : String}
    {v : β} (h : c ∈ d.map Prod.fst) :
    c ∈ (dictInsert d k v).map Prod.fst := by
  rw [keys_dictInsert]
  by_cases hk : k ∈ d.map Prod.fst <;> simp [hk, h]

theorem keys_nodup_dictInsert {d : List (String × β)} {k : String} {v : β}
    (h : (d.map Prod.fst).Nodup) : ((dictInsert d k v).map Prod.fst).Nodup := by
  rw [keys_dictInsert]
  by_cases hk : k ∈ d.map Prod.fst
  · simp [hk, h]
  · rw [if_neg hk, List.nodup_append]
    refine ⟨h, List.nodup_singleton k, ?_⟩
    intro x hx hx1
    rw [List.mem_singleton] at hx1
    subst hx1
    exact hk hx

theorem length_le_length_dictInsert (d : List (String × β)) (k : String)
    (v : β) : d.length ≤ (dictInsert d k v).length := by
  induction d with
  | nil => simp [dictInsert]
  | cons kv rest ih =>
      obtain ⟨k', v'⟩ := kv
      by_cases hk : k' = k
      · simp [dictInsert, hk]
      · simp only [dictInsert, hk, if_neg, not_false_iff, List.length_cons]
        omega

end DictLemmas

section LastValLemmas

variable {β : Type u}

theorem lastVal_cons (kv : String × β) (c : List (String × β)) (k : String) :
    lastVal (kv :: c) k =
      match lastVal c k with
      | some v => some v
      | none => if kv.1 = k then some kv.2 else none := by
  have step : ∀ (acc : Option β) (l : List (String × β)),
      l.foldl (fun a p => if p.1 = k then some p.2 else a) acc =
        match l.foldl (fun a p => if p.1 = k then some p.2 else a) none with
        | some v => some v
        | none => acc := by
    intro acc l
    induction l generalizing acc with
    | nil => simp
    | cons p rest ih =>
        by_cases hp : p.1 = k
        · simp only [List.foldl_cons, hp, if_pos]
          rw [ih (some p.2)]
          cases rest.foldl (fun a p => if p.1 = k then some p.2 else a) none <;> rfl
        · simp only [List.foldl_cons, hp, if_neg, not_false_iff]
          rw [ih acc]
  unfold lastVal
  simp only [List.foldl_cons]
  by_cases hp : kv.1 = k
  · simp only [hp, if_pos]
    exact step (some kv.2) c
  · simp only [hp, if_neg, not_false_iff]
    exact step none c

theorem dictGet_dictUpdate (d c : List (String × β)) (k : String) :
    dictGet (dictUpdate d c) k =
      match lastVal c k with
      | some v => some v
      | none => dictGet d k := by
  induction c generalizing d with
  | nil => simp [dictUpdate, lastVal]
  | cons kv rest ih =>
      have hstep : dictUpdate d (kv :: rest) = dictUpdate (dictInsert d kv.1 kv.2) rest := rfl
      rw [hstep, ih, lastVal_cons]
      cases hl : lastVal rest k with
      | some v => simp
      | none =>
          simp only
          rw [dictGet_dictInsert]
          by_cases hk : kv.1 = k
          · simp [hk]
          · simp [hk, Ne.symm hk]

theorem lastVal_eq_none_of_not_mem {c : List (String × β)} {k : String}
    (h : k ∉ c.map Prod.fst) : lastVal c k = none := by
  induction c with
  | nil => rfl
  | cons kv rest ih =>
      simp only [List.map_cons, List.mem_cons] at h
      push_neg at h
      rw [lastVal_cons, ih h.2]
      simp [Ne.symm h.1]

theorem lastVal_mem {c : List (String × β)} {k : String} {v : β}
    (h : lastVal c k = some v) : (k, v) ∈ c := by
  induction c with
  | nil => simp [lastVal] at h
  | cons kv rest ih =>
      obtain ⟨k1, v1⟩ := kv
      rw [lastVal_cons] at h
      cases hl : lastVal rest k with
      | some w =>
          rw [hl] at h
          cases h
          exact List.mem_cons_of_mem _ (ih hl)
      | none =>
          rw [hl] at h
          by_cases hk : k1 = k
          · subst hk
            simp only [if_pos rfl] at h
            cases h
            exact List.mem_cons_self _ _
          · simp only [hk, if_neg, not_false_iff] at h
            cases h

theorem lastVal_isSome_of_mem {c : List (String × β)} {k : String} {v : β}
    (h : (k, v) ∈ c) : (lastVal c k).isSome := by
  induction c with
  | nil => simp at h
  | cons kv rest ih =>
      rw [lastVal_cons]
      cases hl : lastVal rest k with
      | some w => simp
      | none =>
          rcases List.mem_cons.mp h with heq | hmem
          · cases heq
            simp
          · have := ih hmem
            rw [hl] at this
            simp at this

theorem lastVal_eq_of_unique {c : List (String × β)} {k : String} {v : β}
    (hmem : (k, v) ∈ c) (huniq : ∀ v', (k, v') ∈ c → v' = v) :
    lastVal c k = some v := by
  have hs := lastVal_isSome_of_mem hmem
  cases hl : lastVal c k with
  | none => rw [hl] at hs; simp at hs
  | some w => rw [huniq w (lastVal_mem hl)]

end LastValLemmas

section HeapLemmas

theorem Heap.length_set (h : Heap) (a : Nat) (d : PyDict) :
    (h.set a d).length = h.length :=
  List.length_set h a d

theorem Heap.get_set_eq {h : Heap} {a : Nat} (d : PyDict)
    (ha : a < h.length) : (h.set a d).get a = d := by
  unfold Heap.get Heap.set
  induction h generalizing a with
  | nil => simp at ha
  | cons x rest ih =>
      cases a with
      | zero => rfl
      | succ a' => exact ih (by simpa using ha)

theorem Heap.get_set_ne {h : Heap} {a a' : Nat} (d : PyDict)
    (hne : a' ≠ a) : (h.set a d).get a' = h.get a' := by
  unfold Heap.get Heap.set
  induction h generalizing a a' with
  | nil => rfl
  | cons x rest ih =>
      cases a with
      | zero =>
          cases a' with
          | zero => exact absurd rfl hne
          | succ b => rfl
      | succ a2 =>
          cases a' with
          | zero => rfl
          | succ b => exact ih (by omega)

theorem Heap.get_append_left {h : Heap} (ms : List PyDict) {a : Nat}
    (ha : a < h.length) : (h ++ ms).get a = h.get a := by
  unfold Heap.get
  exact List.getD_append h ms [] a ha

theorem Heap.get_append_right (h : Heap) (ms : List PyDict) (i : Nat) :
    (h ++ ms).get (h.length + i) = ms.getD i [] := by
  unfold Heap.get
  rw [List.getD_append_right h ms [] _ (by omega)]
  congr 1
  omega

end HeapLemmas

section ListHelpers

variable {γ : Type u} {δ : Type u}

theorem listGetD_set_eq {l : List γ} {i : Nat} (x d : γ) (hi : i < l.length) :
    (l.set i x).getD i d = x := by
  rw [List.getD_eq_getElem?_getD, List.getElem?_set_eq_of_lt x hi]
  rfl

theorem listGetD_set_ne {l : List γ} {i j : Nat} (x d : γ) (hij : i ≠ j) :
    (l.set i x).getD j d = l.getD j d := by
  rw [List.getD_eq_getElem?_getD, List.getElem?_set_ne hij,
    ← List.getD_eq_getElem?_getD]

theorem listGetD_map {f : γ → δ} {l : List γ} {i : Nat} (d : δ) (d' : γ)
    (hi : i < l.length) : (l.map f).getD i d = f (l.getD i d') := by
  rw [List.getD_eq_getElem _ _ (by simpa using hi), List.getD_eq_getElem _ _ hi,
    List.getElem_map]

theorem listGetD_zipWith {f : γ → δ → γ} {l1 : List γ} {l2 : List δ}
    {i : Nat} (d : γ) (d2 : δ) (h1 : i < l1.length) (h2 : i < l2.length) :
    (List.zipWith f l1 l2).getD i d = f (l1.getD i d) (l2.getD i d2) := by
  induction l1 generalizing l2 i with
  | nil => simp at h1
  | cons x rest ih =>
      cases l2 with
      | nil => simp at h2
      | cons y rest2 =>
          cases i with
          | zero => rfl
          | succ i' =>
              simp only [List.zipWith_cons_cons, List.getD_cons_succ]
              exact ih (by simpa using h1) (by simpa using h2)

theorem listMap_eq_self {f : γ → γ} {l : List γ} (h : ∀ a ∈ l, f a = a) :
    l.map f = l := by
  induction l with
  | nil => rfl
  | cons x rest ih =>
      simp only [List.map_cons]
      rw [h x (List.mem_cons_self _ _), ih (fun a ha => h a (List.mem_cons_of_mem _ ha))]

end ListHelpers

section FrameLemmas

theorem rowGet_dictInsert_ne (r : List (String × Value)) {c c' : String}
    (v : Value) (h : c' ≠ c) : rowGet (dictInsert r c v) c' = rowGet r c' := by
  unfold rowGet
  rw [dictGet_dictInsert, if_neg h]

theorem rowGet_dictInsert_self (r : List (String × Value)) (c : String)
    (v : Value) : rowGet (dictInsert r c v) c = v := by
  unfold rowGet
  rw [dictGet_dictInsert, if_pos rfl]
  rfl

theorem cols_setAt (df : DataFrame) (i : Nat) (c : String) (v : Value) :
    (df.setAt i c v).cols = df.cols := rfl

theorem rows_length_setAt (df : DataFrame) (i : Nat) (c : String) (v : Value) :
    (df.setAt i c v).rows.length = df.rows.length := by
  unfold DataFrame.setAt
  exact List.length_set _ _ _

theorem getCell_setAt_self {df : DataFrame} {i : Nat} (c : String) (v : Value)
    (hi : i < df.rows.length) : (df.setAt i c v).getCell i c = v := by
  unfold DataFrame.setAt DataFrame.getCell
  simp only
  rw [listGetD_set_eq _ _ hi, rowGet_dictInsert_self]

theorem getCell_setAt_ne_row {df : DataFrame} {i i' : Nat} (c c' : String)
    (v : Value) (h : i ≠ i') : (df.setAt i c v).getCell i' c' = df.getCell i' c' := by
  unfold DataFrame.setAt DataFrame.getCell
  simp only
  rw [listGetD_set_ne _ _ h]

theorem getCell_setAt_ne_col {df : DataFrame} {i i' : Nat} {c c' : String}
    (v : Value) (h : c' ≠ c) : (df.setAt i c v).getCell i' c' = df.getCell i' c' := by
  by_cases hi : i = i'
  · subst hi
    unfold DataFrame.setAt DataFrame.getCell
    simp only
    by_cases hlen : i < df.rows.length
    · rw [listGetD_set_eq _ _ hlen, rowGet_dictInsert_ne _ _ h]
    · rw [List.set_eq_of_length_le (by omega)]
  · exact getCell_setAt_ne_row c c' v hi

theorem cols_setColConst (df : DataFrame) (c : String) (x : Value) :
    (df.setColConst c x).cols = if c ∈ df.cols then df.cols else df.cols ++ [c] := rfl

theorem rows_length_setColConst (df : DataFrame) (c : String) (x : Value) :
    (df.setColConst c x).rows.length = df.rows.length := by
  unfold DataFrame.setColConst
  exact List.length_map _ _

theorem mem_cols_setColConst {df : DataFrame} {c c' : String} (x : Value) :
    c' ∈ (df.setColConst c x).cols ↔ c' ∈ df.cols ∨ c' = c := by
  rw [cols_setColConst]
  by_cases hc : c ∈ df.cols
  · simp only [hc, if_pos]
    constructor
    · exact Or.inl
    · rintro (h | rfl)
      · exact h
      · exact hc
  · simp [hc]

theorem getCell_setColConst_ne {df : DataFrame} {c c' : String} (x : Value)
    (i : Nat) (h : c' ≠ c) :
    (df.setColConst c x).getCell i c' = df.getCell i c' := by
  unfold DataFrame.setColConst DataFrame.getCell
  simp only
  by_cases hi : i < df.rows.length
  · rw [listGetD_map [] [] hi, rowGet_dictInsert_ne _ _ h]
  · rw [List.getD_eq_default _ _ (by simp; omega), List.getD_eq_default _ _ (by omega)]

theorem getCell_setColConst_self {df : DataFrame} {c : String} (x : Value)
    {i : Nat} (hi : i < df.rows.length) :
    (df.setColConst c x).getCell i c = x := by
  unfold DataFrame.setColConst DataFrame.getCell
  simp only
  rw [listGetD_map [] [] hi, rowGet_dictInsert_self]

theorem cols_setCol (df : DataFrame) (c : String) (vs : List Value) :
    (df.setCol c vs).cols = if c ∈ df.cols then df.cols else df.cols ++ [c] := rfl

theorem mem_cols_setCol {df : DataFrame} {c c' : String} (vs : List Value) :
    c' ∈ (df.setCol c vs).cols ↔ c' ∈ df.cols ∨ c' = c := by
  rw [cols_setCol]
  by_cases hc : c ∈ df.cols
  · simp only [hc, if_pos]
    constructor
    · exact Or.inl
    · rintro (h | rfl)
      · exact h
      · exact hc
  · simp [hc]

theorem rows_length_setCol {df : DataFrame} {c : String} {vs : List Value}
    (hvs : vs.length = df.rows.length) :
    (df.setCol c vs).rows.length = df.rows.length := by
  unfold DataFrame.setCol
  simp [hvs]

theorem getCell_setCol_self {df : DataFrame} {c : String} {vs : List Value}
    {i : Nat} (hi : i < df.rows.length) (hvi : i < vs.length) :
    (df.setCol c vs).getCell i c = vs.getD i .null := by
  unfold DataFrame.setCol DataFrame.getCell
  simp only
  rw [listGetD_zipWith [] .null hi hvi, rowGet_dictInsert_self]

theorem getCell_setCol_ne {df : DataFrame} {c c' : String} {vs : List Value}
    (hvs : vs.length = df.rows.length) (i : Nat) (h : c' ≠ c) :
    (df.setCol c vs).getCell i c' = df.getCell i c' := by
  unfold DataFrame.setCol DataFrame.getCell
  simp only
  by_cases hi : i < df.rows.length
  · rw [listGetD_zipWith [] .null hi (by omega), rowGet_dictInsert_ne _ _ h]
  · rw [List.getD_eq_default _ _ (by simp; omega), List.getD_eq_default _ _ (by omega)]

theorem cols_dropCol (df : DataFrame) (c : String) :
    (df.dropCol c).cols = df.cols.filter (fun c' => c' ≠ c) := rfl

theorem not_mem_cols_dropCol (df : DataFrame) (c : String) :
    c ∉ (df.dropCol c).cols := by
  rw [cols_dropCol]
  intro h
  have := List.of_mem_filter h
  simp at this

theorem getCell_dropCol_ne {df : DataFrame} {c c' : String} (i : Nat)
    (h : c' ≠ c) : (df.dropCol c).getCell i c' = df.getCell i c' := by
  unfold DataFrame.dropCol DataFrame.getCell
  simp only
  by_cases hi : i < df.rows.length
  · rw [listGetD_map [] [] hi]
    show rowGet (removeKey _ c) c' = _
    unfold rowGet
    rw [dictGet_removeKey, if_neg h]
  · rw [List.getD_eq_default _ _ (by simp; omega), List.getD_eq_default _ _ (by omega)]

end FrameLemmas

section BuildExpMapLemmas

theorem buildExpMap_eq_dictUpdate (asmts : List (String × Option Value)) :
    buildExpMap asmts = dictUpdate [] (presentExpectations asmts) := by
  have gen : ∀ (d : PyDict) (l : List (String × Option Value)),
      l.foldl
        (fun d' kv =>
          match kv.2 with
          | some v => dictInsert d' kv.1 v
          | none => d') d =
        dictUpdate d (presentExpectations l) := by
    intro d l
    induction l generalizing d with
    | nil => rfl
    | cons kv rest ih =>
        obtain ⟨n, e⟩ := kv
        cases e with
        | none => simpa [presentExpectations] using ih d
        | some v => simpa [presentExpectations, dictUpdate] using ih (dictInsert d n v)
  exact gen [] asmts

theorem dictGet_buildExpMap_isSome_iff (asmts : List (String × Option Value))
    (n : String) :
    (dictGet (buildExpMap asmts) n).isSome ↔ ∃ v, (n, some v) ∈ asmts := by
  rw [buildExpMap_eq_dictUpdate, dictGet_dictUpdate]
  constructor
  · intro h
    cases hl : lastVal (presentExpectations asmts) n with
    | none => rw [hl] at h; simp [dictGet] at h
    | some v =>
        have hmem := lastVal_mem hl
        simp only [presentExpectations, List.mem_filterMap] at hmem
        obtain ⟨⟨k, e⟩, hke, hfe⟩ := hmem
        simp only [Option.map_eq_some'] at hfe
        obtain ⟨w, hw, hkw⟩ := hfe
        cases hkw
        exact ⟨v, by rwa [hw] at hke⟩
  · rintro ⟨v, hv⟩
    have hmem : (n, v) ∈ presentExpectations asmts := by
      simp only [presentExpectations, List.mem_filterMap]
      exact ⟨(n, some v), hv, rfl⟩
    have := lastVal_isSome_of_mem hmem
    cases hl : lastVal (presentExpectations asmts) n with
    | none => rw [hl] at this; simp at this
    | some w => simp

theorem dictGet_buildExpMap_eq_of_unique {asmts : List (String × Option Value)}
    {n : String} {v : Value} (hmem : (n, some v) ∈ asmts)
    (huniq : ∀ e, (n, e) ∈ asmts → e = some v) :
    dictGet (buildExpMap asmts) n = some v := by
  rw [buildExpMap_eq_dictUpdate, dictGet_dictUpdate]
  have hmem' : (n, v) ∈ presentExpectations asmts := by
    simp only [presentExpectations, List.mem_filterMap]
    exact ⟨(n, some v), hmem, rfl⟩
  have huniq' : ∀ v', (n, v') ∈ presentExpectations asmts → v' = v := by
    intro v' hv'
    simp only [presentExpectations, List.mem_filterMap] at hv'
    obtain ⟨⟨k, e⟩, hke, hfe⟩ := hv'
    simp only [Option.map_eq_some'] at hfe
    obtain ⟨w, hw, hkw⟩ := hfe
    cases hkw
    subst hw
    have := huniq (some v') hke
    simpa using this
  rw [lastVal_eq_of_unique hmem' huniq']

theorem buildExpMap_ne_nil_of_mem {asmts : List (String × Option Value)}
    {n : String} {v : Value} (hmem : (n, some v) ∈ asmts) :
    ¬ (buildExpMap asmts).isEmpty := by
  intro hemp
  have h := (dictGet_buildExpMap_isSome_iff asmts n).mpr ⟨v, hmem⟩
  rw [List.isEmpty_iff] at hemp
  rw [hemp] at h
  simp [dictGet] at h

end BuildExpMapLemmas

section MoreListHelpers

variable {γ : Type u}

theorem mem_of_getD_ne {l : List γ} {j : Nat} {d x : γ}
    (h : l.getD j d = x) (hne : x ≠ d) : x ∈ l := by
  by_cases hj : j < l.length
  · rw [List.getD_eq_getElem _ _ hj] at h
    subst h
    exact List.getElem_mem hj
  · rw [List.getD_eq_default _ _ (by omega)] at h
    exact absurd h.symm hne

theorem Heap.set_get_self {h : Heap} {a : Nat} (ha : a < h.length) :
    h.set a (h.get a) = h := by
  unfold Heap.set Heap.get
  induction h generalizing a with
  | nil => simp at ha
  | cons x rest ih =>
      cases a with
      | zero => rfl
      | succ a' =>
          simp only [List.getD_cons_succ, List.set_cons_succ, List.cons.injEq, true_and]
          exact ih (by simpa using ha)

end MoreListHelpers

section PopLemmas

theorem cols_popDF (fs : List String) (d : PyDict) (i : Nat) (df : DataFrame) :
    (popDF fs d i df).cols = df.cols := by
  induction fs generalizing df with
  | nil => rfl
  | cons f fs ih =>
      cases hget : dictGet d f with
      | some v =>
          rw [show popDF (f :: fs) d i df = popDF fs d i (df.setAt i f v) by
            simp [popDF, hget], ih]
          rfl
      | none => rw [show popDF (f :: fs) d i df = popDF fs d i df by simp [popDF, hget], ih]

theorem rows_length_popDF (fs : List String) (d : PyDict) (i : Nat)
    (df : DataFrame) : (popDF fs d i df).rows.length = df.rows.length := by
  induction fs generalizing df with
  | nil => rfl
  | cons f fs ih =>
      cases hget : dictGet d f with
      | some v =>
          rw [show popDF (f :: fs) d i df = popDF fs d i (df.setAt i f v) by
            simp [popDF, hget], ih, rows_length_setAt]
      | none => rw [show popDF (f :: fs) d i df = popDF fs d i df by simp [popDF, hget], ih]

theorem getCell_popDF_ne_row {fs : List String} {d : PyDict} {i i' : Nat}
    {df : DataFrame} (h : i' ≠ i) (c : String) :
    (popDF fs d i df).getCell i' c = df.getCell i' c := by
  induction fs generalizing df with
  | nil => rfl
  | cons f fs ih =>
      cases hget : dictGet d f with
      | some v =>
          rw [show popDF (f :: fs) d i df = popDF fs d i (df.setAt i f v) by
            simp [popDF, hget], ih, getCell_setAt_ne_row _ _ _ (fun hh => h hh.symm)]
      | none => rw [show popDF (f :: fs) d i df = popDF fs d i df by simp [popDF, hget], ih]

theorem getCell_popDF_ne_field {fs : List String} {d : PyDict} {i : Nat}
    {df : DataFrame} {c : String} (h : c ∉ fs) (i' : Nat) :
    (popDF fs d i df).getCell i' c = df.getCell i' c := by
  induction fs generalizing df with
  | nil => rfl
  | cons f fs ih =>
      have hcf : c ≠ f := fun hcf => h (hcf ▸ List.mem_cons_self f fs)
      have hrest : c ∉ fs := fun hm => h (List.mem_cons_of_mem _ hm)
      cases hget : dictGet d f with
      | some v =>
          rw [show popDF (f :: fs) d i df = popDF fs d i (df.setAt i f v) by
            simp [popDF, hget], ih hrest, getCell_setAt_ne_col _ hcf]
      | none => rw [show popDF (f :: fs) d i df = popDF fs d i df by simp [popDF, hget], ih hrest]

theorem getCell_popDF_mem {fs : List String} {d : PyDict} {i : Nat}
    {df : DataFrame} {f : String} (hnd : fs.Nodup) (hf : f ∈ fs)
    (hi : i < df.rows.length) :
    (popDF fs d i df).getCell i f = (dictGet d f).getD (df.getCell i f) := by
  induction fs generalizing df with
  | nil => simp at hf
  | cons g fs ih =>
      rw [List.nodup_cons] at hnd
      rcases List.mem_cons.mp hf with rfl | hf'
      · cases hget : dictGet d f with
        | some v =>
            rw [show popDF (f :: fs) d i df = popDF fs d i (df.setAt i f v) by
              simp [popDF, hget], getCell_popDF_ne_field hnd.1 i,
              getCell_setAt_self _ _ hi]
            rfl
        | none =>
            rw [show popDF (f :: fs) d i df = popDF fs d i df by simp [popDF, hget],
              getCell_popDF_ne_field hnd.1 i]
            rfl
      · cases hget : dictGet d g with
        | some v =>
            have hgf : f ≠ g := by
              intro hfg
              exact hnd.1 (hfg ▸ hf')
            rw [show popDF (g :: fs) d i df = popDF fs d i (df.setAt i g v) by
              simp [popDF, hget], ih hnd.2 hf' (by rwa [rows_length_setAt]),
              getCell_setAt_ne_col _ hgf]
        | none =>
            rw [show popDF (g :: fs) d i df = popDF fs d i df by simp [popDF, hget],
              ih hnd.2 hf' hi]

theorem popDF_congr {fs : List String} {d1 d2 : PyDict} {i : Nat}
    (hcong : ∀ g ∈ fs, dictGet d1 g = dictGet d2 g) (df : DataFrame) :
    popDF fs d1 i df = popDF fs d2 i df := by
  induction fs generalizing df with
  | nil => rfl
  | cons f fs ih =>
      have hf := hcong f (List.mem_cons_self f fs)
      have hrest : ∀ g ∈ fs, dictGet d1 g = dictGet d2 g :=
        fun g hg => hcong g (List.mem_cons_of_mem _ hg)
      cases hget : dictGet d2 f with
      | some v =>
          rw [show popDF (f :: fs) d2 i df = popDF fs d2 i (df.setAt i f v) by
              simp [popDF, hget],
            show popDF (f :: fs) d1 i df = popDF fs d1 i (df.setAt i f v) by
              simp [popDF, hf, hget], ih hrest]
      | none =>
          rw [show popDF (f :: fs) d2 i df = popDF fs d2 i df by simp [popDF, hget],
            show popDF (f :: fs) d1 i df = popDF fs d1 i df by simp [popDF, hf, hget],
            ih hrest]

theorem popReservedFields_spec {fs : List String} (hnd : fs.Nodup)
    (df : DataFrame) {h : Heap} {a : Nat} (i : Nat) (ha : a < h.length) :
    popReservedFields i a fs (df, h) =
      (popDF fs (h.get a) i df, h.set a (removeKeys (h.get a) fs)) := by
  induction fs generalizing df h with
  | nil =>
      show (df, h) = (df, h.set a (h.get a))
      rw [Heap.set_get_self ha]
  | cons f fs ih =>
      rw [List.nodup_cons] at hnd
      cases hget : dictGet (h.get a) f with
      | none =>
          have hrem : removeKey (h.get a) f = h.get a :=
            removeKey_eq_self_of_not_mem _ _ hget
          have hstep : popReservedFields i a (f :: fs) (df, h) =
              popReservedFields i a fs (df, h) := by
            simp [popReservedFields, hget]
          have hpop : popDF (f :: fs) (h.get a) i df = popDF fs (h.get a) i df := by
            simp [popDF, hget]
          have hkeys : removeKeys (h.get a) (f :: fs) = removeKeys (h.get a) fs := by
            show removeKeys (removeKey (h.get a) f) fs = _
            rw [hrem]
          rw [hstep, ih hnd.2 df ha, hpop, hkeys]
      | some v =>
          have hstep : popReservedFields i a (f :: fs) (df, h) =
              popReservedFields i a fs (df.setAt i f v, h.set a (removeKey (h.get a) f)) := by
            simp [popReservedFields, hget]
          rw [hstep, ih hnd.2 _ (by rw [Heap.length_set]; exact ha)]
          rw [Heap.get_set_eq _ ha]
          have hset2 : (h.set a (removeKey (h.get a) f)).set a
              (removeKeys (removeKey (h.get a) f) fs) =
              h.set a (removeKeys (h.get a) (f :: fs)) := by
            unfold Heap.set
            rw [List.set_set]
            rfl
          rw [hset2]
          have hdf : popDF fs (removeKey (h.get a) f) i (df.setAt i f v) =
              popDF (f :: fs) (h.get a) i df := by
            rw [show popDF (f :: fs) (h.get a) i df = popDF fs (h.get a) i (df.setAt i f v) by
              simp [popDF, hget]]
            exact popDF_congr
              (fun g hg => by
                rw [dictGet_removeKey,
                  if_neg (fun hgf : g = f => hnd.1 (hgf ▸ hg))])
              _
          rw [hdf]

end PopLemmas

section FlattenRowLemmas

theorem reservedKeys_nodup : AgentEvaluationReserverKey.get_all.Nodup := by
  decide

theorem custom_not_mem_reserved :
    AGENT_EVAL_CUSTOM_EXPECTATION_KEY ∉ AgentEvaluationReserverKey.get_all := by
  decide

theorem flattenRow_ref (df : DataFrame) (h : Heap) (i : Nat) {a : Nat}
    (ha : a < h.length) :
    flattenRow (df, h) i (.ref a) =
      .ok (flattenRowDF (h.get a) i a df, h.set a (popAllReserved (h.get a))) := by
  show Except.ok
      (if ((popReservedFields i a AgentEvaluationReserverKey.get_all (df, h)).2.get a).isEmpty
       then popReservedFields i a AgentEvaluationReserverKey.get_all (df, h)
       else ((popReservedFields i a AgentEvaluationReserverKey.get_all (df, h)).1.setAt i
              AGENT_EVAL_CUSTOM_EXPECTATION_KEY (.ref a),
             (popReservedFields i a AgentEvaluationReserverKey.get_all (df, h)).2)) = _
  rw [popReservedFields_spec reservedKeys_nodup df i ha]
  simp only [Heap.get_set_eq _ ha]
  unfold flattenRowDF popAllReserved removeKeys
  by_cases hemp : (List.foldl (fun d' f => removeKey d' f) (h.get a)
      AgentEvaluationReserverKey.get_all).isEmpty
  · rw [if_pos hemp, if_pos hemp]
  · rw [if_neg hemp, if_neg hemp]

theorem flattenRow_cols_rowsLen (df : DataFrame) (h : Heap) (i a : Nat) :
    (flattenRowDF (h.get a) i a df).cols = df.cols ∧
      (flattenRowDF (h.get a) i a df).rows.length = df.rows.length := by
  unfold flattenRowDF
  by_cases hemp : (popAllReserved (h.get a)).isEmpty
  · rw [if_pos hemp]
    exact ⟨cols_popDF _ _ _ _, rows_length_popDF _ _ _ _⟩
  · rw [if_neg hemp]
    refine ⟨(cols_setAt _ _ _ _).trans (cols_popDF _ _ _ _), ?_⟩
    rw [rows_length_setAt, rows_length_popDF]

theorem getCell_flattenRowDF_ne_row {d : PyDict} {i i' a : Nat}
    {df : DataFrame} (hne : i' ≠ i) (c : String) :
    (flattenRowDF d i a df).getCell i' c = df.getCell i' c := by
  unfold flattenRowDF
  by_cases hemp : (popAllReserved d).isEmpty
  · rw [if_pos hemp]
    exact getCell_popDF_ne_row hne c
  · rw [if_neg hemp]
    rw [getCell_setAt_ne_row _ _ _ (fun hh => hne hh.symm), getCell_popDF_ne_row hne c]

theorem getCell_flattenRowDF_reserved {d : PyDict} {i a : Nat}
    {df : DataFrame} {f : String} (hf : f ∈ AgentEvaluationReserverKey.get_all)
    (hi : i < df.rows.length) :
    (flattenRowDF d i a df).getCell i f = (dictGet d f).getD (df.getCell i f) := by
  have hfc : f ≠ AGENT_EVAL_CUSTOM_EXPECTATION_KEY := by
    intro heq
    exact custom_not_mem_reserved (heq ▸ hf)
  unfold flattenRowDF
  by_cases hemp : (popAllReserved d).isEmpty
  · rw [if_pos hemp]
    exact getCell_popDF_mem reservedKeys_nodup hf hi
  · rw [if_neg hemp]
    rw [getCell_setAt_ne_col _ hfc, getCell_popDF_mem reservedKeys_nodup hf hi]

theorem getCell_flattenRowDF_custom {d : PyDict} {i a : Nat}
    {df : DataFrame} (hi : i < df.rows.length) :
    (flattenRowDF d i a df).getCell i AGENT_EVAL_CUSTOM_EXPECTATION_KEY =
      if (popAllReserved d).isEmpty
      then df.getCell i AGENT_EVAL_CUSTOM_EXPECTATION_KEY else .ref a := by
  unfold flattenRowDF
  by_cases hemp : (popAllReserved d).isEmpty
  · rw [if_pos hemp, if_pos hemp]
    exact getCell_popDF_ne_field custom_not_mem_reserved i
  · rw [if_neg hemp, if_neg hemp]
    exact getCell_setAt_self _ _ (by rwa [rows_length_popDF])

end FlattenRowLemmas

section FlattenLoopLemmas

theorem flattenLoop_ok_of_good : ∀ (cells : List Value) (i : Nat)
    (st : DataFrame × Heap), (∀ v ∈ cells, v.isDict ∨ v = .null) →
    ∃ st', flattenLoop i cells st = .ok st' := by
  intro cells
  induction cells with
  | nil => exact fun i st _ => ⟨st, rfl⟩
  | cons v rest ih =>
      intro i st hgood
      have hv := hgood v (List.mem_cons_self _ _)
      have hrest : ∀ w ∈ rest, w.isDict ∨ w = .null :=
        fun w hw => hgood w (List.mem_cons_of_mem _ hw)
      rcases hv with hd | hnull
      · cases v with
        | ref a =>
            obtain ⟨st1, hst1⟩ : ∃ st1, flattenRow st i (.ref a) = .ok st1 := ⟨_, rfl⟩
            obtain ⟨st', hst'⟩ := ih (i + 1) st1 hrest
            exact ⟨st', by simp [flattenLoop, hst1, hst']⟩
        | null => simp [Value.isDict] at hd
        | bool b => simp [Value.isDict] at hd
        | int n => simp [Value.isDict] at hd
        | str s => simp [Value.isDict] at hd
        | pylist vs => simp [Value.isDict] at hd
        | pytrace r as => simp [Value.isDict] at hd
      · subst hnull
        obtain ⟨st', hst'⟩ := ih (i + 1) st hrest
        exact ⟨st', by simpa [flattenLoop, flattenRow] using hst'⟩

theorem flattenLoop_error_of_bad : ∀ (cells : List Value) (i : Nat)
    (st : DataFrame × Heap), (∀ v ∈ cells, ∀ vs, v ≠ .pylist vs) →
    (∃ v ∈ cells, ¬ v.isDict ∧ v ≠ .null) →
    flattenLoop i cells st = .error (.invalidParameter expectationsErrMsg) := by
  intro cells
  induction cells with
  | nil => intro i st _ hbad; simp at hbad
  | cons v rest ih =>
      intro i st hnl hbad
      have hnlrest : ∀ w ∈ rest, ∀ vs, w ≠ .pylist vs :=
        fun w hw => hnl w (List.mem_cons_of_mem _ hw)
      by_cases hv : v.isDict ∨ v = .null
      · have hrest : ∃ w ∈ rest, ¬ w.isDict ∧ w ≠ .null := by
          obtain ⟨w, hw, hwprop⟩ := hbad
          rcases List.mem_cons.mp hw with rfl | hw'
          · rcases hv with hd | hn
            · exact absurd hd hwprop.1
            · exact absurd hn hwprop.2
          · exact ⟨w, hw', hwprop⟩
        rcases hv with hd | hn
        · cases v with
          | ref a =>
              obtain ⟨st1, hst1⟩ : ∃ st1, flattenRow st i (.ref a) = .ok st1 := ⟨_, rfl⟩
              simp only [flattenLoop, hst1]
              exact ih (i + 1) st1 hnlrest hrest
          | null => simp [Value.isDict] at hd
          | bool b => simp [Value.isDict] at hd
          | int n => simp [Value.isDict] at hd
          | str s => simp [Value.isDict] at hd
          | pylist vs => simp [Value.isDict] at hd
          | pytrace r as => simp [Value.isDict] at hd
        · subst hn
          simp only [flattenLoop, flattenRow, pdIsNaTruth]
          exact ih (i + 1) st hnlrest hrest
      · push_neg at hv
        have hrow : flattenRow st i v = .error (.invalidParameter expectationsErrMsg) := by
          cases v with
          | ref a => simp [Value.isDict] at hv
          | null => exact absurd rfl hv.2
          | bool b => rfl
          | int n => rfl
          | str s => rfl
          | pylist vs =>
              exact absurd rfl (hnl (.pylist vs) (List.mem_cons_self _ _) vs)
          | pytrace r as => rfl
        simp only [flattenLoop, hrow]

/-- The master description of the flattening loop on a list of cells that
are all dict references (into pairwise-distinct live addresses) or nulls:
the loop succeeds, every referenced dict loses its reserved keys in place,
unreferenced heap entries are untouched, and the row of a referenced cell
receives the popped reserved values and the custom bucket. -/
theorem flattenLoop_spec :
    ∀ (cells : List Value) (i0 : Nat) (df : DataFrame) (h : Heap)
      (hcell : ∀ v ∈ cells, v = .null ∨ ∃ a, v = .ref a ∧ a < h.length)
      (hdisj : cells.Pairwise (fun v w => ∀ a b, v = .ref a → w = .ref b → a ≠ b)),
    ∃ df' h', flattenLoop i0 cells (df, h) = .ok (df', h') ∧
      h'.length = h.length ∧
      df'.cols = df.cols ∧
      df'.rows.length = df.rows.length ∧
      (∀ j a, cells.getD j .null = .ref a → h'.get a = popAllReserved (h.get a)) ∧
      (∀ a, (∀ v ∈ cells, v ≠ .ref a) → h'.get a = h.get a) ∧
      (∀ j a, cells.getD j .null = .ref a → i0 + j < df.rows.length →
        (∀ f ∈ AgentEvaluationReserverKey.get_all,
          df'.getCell (i0 + j) f = (dictGet (h.get a) f).getD (df.getCell (i0 + j) f)) ∧
        df'.getCell (i0 + j) AGENT_EVAL_CUSTOM_EXPECTATION_KEY =
          (if (popAllReserved (h.get a)).isEmpty
           then df.getCell (i0 + j) AGENT_EVAL_CUSTOM_EXPECTATION_KEY else .ref a)) ∧
      (∀ i' c, i' < i0 → df'.getCell i' c = df.getCell i' c) := by
  intro cells
  induction cells with
  | nil =>
      intro i0 df h hcell hdisj
      refine ⟨df, h, rfl, rfl, rfl, rfl, ?_, fun a _ => rfl, ?_, fun i' c _ => rfl⟩
      · intro j a hj
        simp [List.getD] at hj
      · intro j a hj
        simp [List.getD] at hj
  | cons v rest ih =>
      intro i0 df h hcell hdisj
      rw [List.pairwise_cons] at hdisj
      rcases hcell v (List.mem_cons_self _ _) with hnull | ⟨a, rfl, ha⟩
      · -- null cell: the row is skipped
        subst hnull
        obtain ⟨df', h', hloop, hlen, hcols, hrows, hheap, hframe, hcellc, hlow⟩ :=
          ih (i0 + 1) df h
            (fun w hw => hcell w (List.mem_cons_of_mem _ hw)) hdisj.2
        refine ⟨df', h', ?_, hlen, hcols, hrows, ?_, ?_, ?_, ?_⟩
        · simpa [flattenLoop, flattenRow] using hloop
        · intro j a hj
          cases j with
          | zero => simp at hj
          | succ j' =>
              rw [List.getD_cons_succ] at hj
              exact hheap j' a hj
        · intro a hna
          exact hframe a (fun w hw => hna w (List.mem_cons_of_mem _ hw))
        · intro j a hj hlt
          cases j with
          | zero => simp at hj
          | succ j' =>
              rw [List.getD_cons_succ] at hj
              have harith : i0 + (j' + 1) = (i0 + 1) + j' := by omega
              rw [harith] at hlt ⊢
              exact hcellc j' a hj hlt
        · intro i' c hi'
          exact hlow i' c (by omega)
      · -- dict cell: pop the reserved keys of the dict at `a` in place
        have hrowstep := flattenRow_ref df h i0 ha
        obtain ⟨df', h', hloop, hlen, hcols, hrows, hheap, hframe, hcellc, hlow⟩ :=
          ih (i0 + 1) (flattenRowDF (h.get a) i0 a df)
            (h.set a (popAllReserved (h.get a)))
            (fun w hw => by
              rcases hcell w (List.mem_cons_of_mem _ hw) with hn | ⟨b, rfl, hb⟩
              · exact Or.inl hn
              · exact Or.inr ⟨b, rfl, by rwa [Heap.length_set]⟩)
            hdisj.2
        have hnea : ∀ w ∈ rest, w ≠ Value.ref a := by
          intro w hw hwa
          exact hdisj.1 w hw a a rfl hwa rfl
        refine ⟨df', h', ?_, ?_, ?_, ?_, ?_, ?_, ?_, ?_⟩
        · simp only [flattenLoop, hrowstep]
          exact hloop
        · rw [hlen, Heap.length_set]
        · rw [hcols, (flattenRow_cols_rowsLen df h i0 a).1]
        · rw [hrows, (flattenRow_cols_rowsLen df h i0 a).2]
        · intro j b hj
          cases j with
          | zero =>
              rw [List.getD_cons_zero] at hj
              cases hj
              rw [hframe a (hnea), Heap.get_set_eq _ ha]
          | succ j' =>
              rw [List.getD_cons_succ] at hj
              have hba : b ≠ a := by
                intro hba
                subst hba
                have hmem : Value.ref b ∈ rest := mem_of_getD_ne hj (by simp)
                exact hnea _ hmem rfl
              rw [hheap j' b hj, Heap.get_set_ne _ hba]
        · intro b hnb
          have hba : b ≠ a := by
            intro hba
            exact hnb (.ref a) (List.mem_cons_self _ _) (by rw [hba])
          rw [hframe b (fun w hw => hnb w (List.mem_cons_of_mem _ hw)),
            Heap.get_set_ne _ hba]
        · intro j b hj hlt
          cases j with
          | zero =>
              rw [List.getD_cons_zero] at hj
              cases hj
              simp only [Nat.add_zero] at hlt ⊢
              constructor
              · intro f hf
                rw [hlow i0 f (by omega),
                  getCell_flattenRowDF_reserved hf hlt]
              · rw [hlow i0 AGENT_EVAL_CUSTOM_EXPECTATION_KEY (by omega),
                  getCell_flattenRowDF_custom hlt]
          | succ j' =>
              rw [List.getD_cons_succ] at hj
              have hba : b ≠ a := by
                intro hba
                subst hba
                exact hnea _ (mem_of_getD_ne hj (by simp)) rfl
              have harith : i0 + (j' + 1) = (i0 + 1) + j' := by omega
              rw [harith] at hlt ⊢
              have hlt2 : (i0 + 1) + j' < (flattenRowDF (h.get a) i0 a df).rows.length := by
                rw [(flattenRow_cols_rowsLen df h i0 a).2]
                exact hlt
              obtain ⟨hres, hcust⟩ := hcellc j' b hj hlt2
              constructor
              · intro f hf
                rw [hres f hf, Heap.get_set_ne _ hba,
                  getCell_flattenRowDF_ne_row (by omega) f]
              · rw [hcust, Heap.get_set_ne _ hba,
                  getCell_flattenRowDF_ne_row (by omega) AGENT_EVAL_CUSTOM_EXPECTATION_KEY]
        · intro i' c hi'
          rw [hlow i' c (by omega), getCell_flattenRowDF_ne_row (by omega) c]

end FlattenLoopLemmas

section NullInitFrameLemmas

theorem setColConst_fold_cells :
    ∀ (fs : List String) (df : DataFrame) (c : String), c ∉ fs →
      (fs.foldl (fun d f => d.setColConst f .null) df).rows.map
          (fun r => rowGet r c) =
        df.rows.map (fun r => rowGet r c) := by
  intro fs
  induction fs with
  | nil => intro df c _; rfl
  | cons f fs ih =>
      intro df c hc
      have hcf : c ≠ f := fun hcf => hc (hcf ▸ List.mem_cons_self f fs)
      have hrest : c ∉ fs := fun hm => hc (List.mem_cons_of_mem _ hm)
      rw [List.foldl_cons, ih _ c hrest]
      show (df.rows.map (fun r => dictInsert r f .null)).map (fun r => rowGet r c) = _
      rw [List.map_map]
      exact List.map_congr_left (fun r _ => rowGet_dictInsert_ne r .null hcf)

theorem setColConst_fold_rows_length :
    ∀ (fs : List String) (df : DataFrame),
      (fs.foldl (fun d f => d.setColConst f .null) df).rows.length =
        df.rows.length := by
  intro fs
  induction fs with
  | nil => intro df; rfl
  | cons f fs ih =>
      intro df
      rw [List.foldl_cons, ih, rows_length_setColConst]

theorem setColConst_fold_getCell_ne :
    ∀ (fs : List String) (df : DataFrame) (c : String) (i : Nat), c ∉ fs →
      (fs.foldl (fun d f => d.setColConst f .null) df).getCell i c =
        df.getCell i c := by
  intro fs
  induction fs with
  | nil => intro df c i _; rfl
  | cons f fs ih =>
      intro df c i hc
      have hcf : c ≠ f := fun hcf => hc (hcf ▸ List.mem_cons_self f fs)
      have hrest : c ∉ fs := fun hm => hc (List.mem_cons_of_mem _ hm)
      rw [List.foldl_cons, ih _ c i hrest, getCell_setColConst_ne _ i hcf]

theorem setColConst_fold_getCell_mem :
    ∀ (fs : List String) (df : DataFrame) (f : String) (i : Nat), f ∈ fs →
      i < df.rows.length →
      (fs.foldl (fun d f => d.setColConst f .null) df).getCell i f =
        .null := by
  intro fs
  induction fs with
  | nil => intro df f i hf; simp at hf
  | cons g fs ih =>
      intro df f i hf hi
      rw [List.foldl_cons]
      by_cases hfs : f ∈ fs
      · exact ih _ f i hfs (by rwa [rows_length_setColConst])
      · rcases List.mem_cons.mp hf with rfl | hf'
        · rw [setColConst_fold_getCell_ne fs _ f i hfs,
            getCell_setColConst_self _ hi]
        · exact absurd hf' hfs

theorem mem_cols_setColConst_fold :
    ∀ (fs : List String) (df : DataFrame) (c : String),
      c ∈ (fs.foldl (fun d f => d.setColConst f .null) df).cols ↔
        c ∈ df.cols ∨ c ∈ fs := by
  intro fs
  induction fs with
  | nil => intro df c; simp
  | cons f fs ih =>
      intro df c
      rw [List.foldl_cons, ih, mem_cols_setColConst]
      constructor
      · rintro ((h | rfl) | h)
        · exact Or.inl h
        · exact Or.inr (List.mem_cons_self _ _)
        · exact Or.inr (List.mem_cons_of_mem _ h)
      · rintro (h | h)
        · exact Or.inl (Or.inl h)
        · rcases List.mem_cons.mp h with rfl | h'
          · exact Or.inl (Or.inr rfl)
          · exact Or.inr h'

theorem expectations_not_mem_fields :
    "expectations" ∉
      AgentEvaluationReserverKey.get_all ++ [AGENT_EVAL_CUSTOM_EXPECTATION_KEY] := by
  decide

/-- The flattening stage on a frame whose expectation cells are all dict
references (pairwise-distinct, live) or nulls: it succeeds, pops the
reserved keys of every referenced dict in place, leaves other heap entries
alone, drops the `expectations` column, and fills the reserved columns from
the dicts. -/
theorem flatten_spec (h : Heap) (df : DataFrame)
    (hexp : "expectations" ∈ df.cols)
    (hcells : ∀ r ∈ df.rows, rowGet r "expectations" = .null ∨
      ∃ a, rowGet r "expectations" = .ref a ∧ a < h.length)
    (hdisj : (df.rows.map (fun r => rowGet r "expectations")).Pairwise
      (fun v w => ∀ a b, v = .ref a → w = .ref b → a ≠ b)) :
    ∃ df' h', _convert_expectations_to_legacy_columns h df = .ok (df', h') ∧
      h'.length = h.length ∧
      (∀ j a, (df.rows.map (fun r => rowGet r "expectations")).getD j .null = .ref a →
        h'.get a = popAllReserved (h.get a)) ∧
      (∀ a, (∀ r ∈ df.rows, rowGet r "expectations" ≠ .ref a) →
        h'.get a = h.get a) ∧
      "expectations" ∉ df'.cols ∧
      df'.rows.length = df.rows.length ∧
      (∀ j a, (df.rows.map (fun r => rowGet r "expectations")).getD j .null = .ref a →
        j < df.rows.length →
        ∀ f ∈ AgentEvaluationReserverKey.get_all,
          df'.getCell j f = (dictGet (h.get a) f).getD .null) := by
  have hcellsEq : (nullInitFrame df).rows.map (fun r => rowGet r "expectations") =
      df.rows.map (fun r => rowGet r "expectations") :=
    setColConst_fold_cells _ df _ expectations_not_mem_fields
  have hrowsEq : (nullInitFrame df).rows.length = df.rows.length :=
    setColConst_fold_rows_length _ df
  obtain ⟨df1, h1, hloop, hlen, hcols, hrows, hheap, hframe, hcellc, _⟩ :=
    flattenLoop_spec (df.rows.map (fun r => rowGet r "expectations")) 0
      (nullInitFrame df) h
      (by
        intro v hv
        rw [List.mem_map] at hv
        obtain ⟨r, hr, rfl⟩ := hv
        exact hcells r hr)
      hdisj
  refine ⟨df1.dropCol "expectations", h1, ?_, hlen, ?_, ?_, ?_, ?_, ?_⟩
  · unfold _convert_expectations_to_legacy_columns
    rw [if_pos hexp, hcellsEq, hloop]
  · intro j a hj
    exact hheap j a hj
  · intro a hna
    refine hframe a ?_
    intro v hv hva
    rw [List.mem_map] at hv
    obtain ⟨r, hr, rfl⟩ := hv
    exact hna r hr hva
  · exact not_mem_cols_dropCol _ _
  · show (df1.rows.map _).length = _
    rw [List.length_map, hrows, hrowsEq]
  · intro j a hj hjlt f hf
    have hne : f ≠ "expectations" := by
      intro heq
      subst heq
      exact expectations_not_mem_fields (List.mem_append_left _ hf)
    rw [getCell_dropCol_ne j hne]
    have hjlt0 : 0 + j < (nullInitFrame df).rows.length := by omega
    obtain ⟨hres, _⟩ := hcellc j a hj hjlt0
    have hzero : (0 : Nat) + j = j := by omega
    rw [hzero] at hres
    rw [hres f hf, show (nullInitFrame df).getCell j f = Value.null from
      setColConst_fold_getCell_mem _ df f j (List.mem_append_left _ hf) hjlt]

end NullInitFrameLemmas

section ExtractLemmas

theorem extract_request_no_trace {df : DataFrame} (jl : String → Value)
    (htr : "trace" ∉ df.cols) : _extract_request_from_trace jl df = df := by
  unfold _extract_request_from_trace
  rw [if_neg htr]

theorem extract_expectations_no_trace {df : DataFrame} (h : Heap)
    (htr : "trace" ∉ df.cols) : _extract_expectations_from_trace h df = (df, h) := by
  unfold _extract_expectations_from_trace
  rw [if_neg htr]

theorem flatten_no_expectations {df : DataFrame} (h : Heap)
    (hexp : "expectations" ∉ df.cols) :
    _convert_expectations_to_legacy_columns h df = .ok (df, h) := by
  unfold _convert_expectations_to_legacy_columns
  rw [if_neg hexp]

theorem extract_expectations_all_empty {df : DataFrame} (h : Heap)
    (htr : "trace" ∈ df.cols)
    (hall : (df.rows.map (fun r => buildExpMap (traceAssessments (rowGet r "trace")))).all
      (fun m => m.isEmpty) = true) :
    _extract_expectations_from_trace h df = (df, h) := by
  simp only [_extract_expectations_from_trace, if_pos htr, hall, if_pos]

theorem extract_expectations_nonempty {df : DataFrame} (h : Heap)
    (htr : "trace" ∈ df.cols)
    (hne : ¬ ((df.rows.map (fun r => buildExpMap (traceAssessments (rowGet r "trace")))).all
      (fun m => m.isEmpty) = true)) :
    _extract_expectations_from_trace h df =
      (df.setCol "expectations"
        ((List.range df.rows.length).map (fun i => Value.ref (h.length + i))),
       h ++ df.rows.map (fun r => buildExpMap (traceAssessments (rowGet r "trace")))) := by
  simp only [_extract_expectations_from_trace, if_pos htr]
  rw [if_neg hne]

theorem cells_setCol_self :
    ∀ (rows : List (List (String × Value))) (vs : List Value) (c : String),
      vs.length = rows.length →
      (List.zipWith (fun r v => dictInsert r c v) rows vs).map
        (fun r => rowGet r c) = vs := by
  intro rows
  induction rows with
  | nil =>
      intro vs c hlen
      cases vs with
      | nil => rfl
      | cons v vs => simp at hlen
  | cons r rows ih =>
      intro vs c hlen
      cases vs with
      | nil => simp at hlen
      | cons v vs =>
          simp only [List.zipWith_cons_cons, List.map_cons]
          rw [rowGet_dictInsert_self, ih vs c (by simpa using hlen)]

end ExtractLemmas

section RenameLemmas

theorem renameLabel_eq_self {c : String} (h1 : c ≠ "inputs")
    (h2 : c ≠ "outputs") : renameLabel c = c := by
  unfold renameLabel
  rw [if_neg h1, if_neg h2]

theorem renameLabel_eq_iff {k t : String} (h1 : t ≠ "request")
    (h2 : t ≠ "response") (h3 : t ≠ "inputs") (h4 : t ≠ "outputs") :
    renameLabel k = t ↔ k = t := by
  constructor
  · intro hk
    by_cases hki : k = "inputs"
    · rw [hki, show renameLabel "inputs" = "request" from rfl] at hk
      exact absurd hk.symm h1
    · by_cases hko : k = "outputs"
      · rw [hko, show renameLabel "outputs" = "response" from rfl] at hk
        exact absurd hk.symm h2
      · rwa [renameLabel_eq_self hki hko] at hk
  · intro hk
    subst hk
    exact renameLabel_eq_self h3 h4

theorem mem_cols_rename_iff {df : DataFrame} {t : String} (h1 : t ≠ "request")
    (h2 : t ≠ "response") (h3 : t ≠ "inputs") (h4 : t ≠ "outputs") :
    t ∈ df.rename.cols ↔ t ∈ df.cols := by
  show t ∈ df.cols.map renameLabel ↔ _
  rw [List.mem_map]
  constructor
  · rintro ⟨c, hc, hct⟩
    rwa [(renameLabel_eq_iff h1 h2 h3 h4).mp hct] at hc
  · intro ht
    exact ⟨t, ht, renameLabel_eq_self h3 h4⟩

theorem dictGet_cons_self {β : Type u} (t : String) (v : β)
    (rest : List (String × β)) : dictGet ((t, v) :: rest) t = some v := by
  simp [dictGet]

theorem dictGet_cons_ne {β : Type u} {k t : String} (h : k ≠ t) {v : β}
    {rest : List (String × β)} :
    dictGet ((k, v) :: rest) t = dictGet rest t := by
  simp [dictGet, h]

theorem rowGet_rename_row (r : List (String × Value)) {t : String}
    (h1 : t ≠ "request") (h2 : t ≠ "response") (h3 : t ≠ "inputs")
    (h4 : t ≠ "outputs") :
    rowGet (r.map (fun kv => (renameLabel kv.1, kv.2))) t = rowGet r t := by
  induction r with
  | nil => rfl
  | cons kv rest ih =>
      obtain ⟨k, v⟩ := kv
      by_cases hk : k = t
      · subst hk
        show rowGet ((renameLabel k, v) :: _) k = _
        unfold rowGet
        rw [renameLabel_eq_self h3 h4, dictGet_cons_self, dictGet_cons_self]
      · have hrk : renameLabel k ≠ t := by
          intro hr
          exact hk ((renameLabel_eq_iff h1 h2 h3 h4).mp hr)
        show rowGet ((renameLabel k, v) :: _) t = _
        unfold rowGet
        rw [dictGet_cons_ne hrk, dictGet_cons_ne hk]
        exact ih

theorem cells_rename (df : DataFrame) {t : String} (h1 : t ≠ "request")
    (h2 : t ≠ "response") (h3 : t ≠ "inputs") (h4 : t ≠ "outputs") :
    df.rename.rows.map (fun r => rowGet r t) = df.rows.map (fun r => rowGet r t) := by
  show (df.rows.map _).map _ = _
  rw [List.map_map]
  exact List.map_congr_left (fun r _ => rowGet_rename_row r h1 h2 h3 h4)

theorem rows_length_rename (df : DataFrame) :
    df.rename.rows.length = df.rows.length := by
  show (df.rows.map _).length = _
  rw [List.length_map]

theorem rename_eq_self {df : DataFrame} (hi : "inputs" ∉ df.cols)
    (ho : "outputs" ∉ df.cols)
    (hwf : ∀ r ∈ df.rows, ∀ kv ∈ r, kv.1 ∈ df.cols) : df.rename = df := by
  have hlabel : ∀ c ∈ df.cols, renameLabel c = c := by
    intro c hc
    exact renameLabel_eq_self (fun h => hi (h ▸ hc)) (fun h => ho (h ▸ hc))
  unfold DataFrame.rename
  have hcols : df.cols.map renameLabel = df.cols := listMap_eq_self hlabel
  have hrows : df.rows.map (fun r => r.map (fun kv => (renameLabel kv.1, kv.2))) =
      df.rows := by
    refine listMap_eq_self ?_
    intro r hr
    refine listMap_eq_self ?_
    intro kv hkv
    obtain ⟨k, v⟩ := kv
    rw [hlabel k (hwf r hr (k, v) hkv)]
  rw [hcols, hrows]

end RenameLemmas

section AdapterLemmas

variable {α : Type u}

theorem map_fst_filter_keys (ps : List String)
    (l : List (String × MergedVal α)) :
    (l.filter (fun kv => kv.1 ∈ ps)).map Prod.fst =
      (l.map Prod.fst).filter (fun k => k ∈ ps) := by
  induction l with
  | nil => rfl
  | cons kv rest ih =>
      by_cases hp : kv.1 ∈ ps
      · simp [List.filter_cons, hp, ih]
      · simp [List.filter_cons, hp, ih]

theorem mergedBase_keys (a : EvalFnArgs α) :
    (mergedBase a).map Prod.fst =
      ["inputs", "outputs", "expectations", "trace", "guidelines",
       "retrieved_context", "expected_facts", "expected_retrieved_context",
       "custom_expected", "custom_inputs", "custom_outputs", "tool_calls"] := rfl

theorem keys_filter_kwfold (ps : List String) :
    ∀ (kw : List (String × Option α)) (base : List (String × MergedVal α)),
      (∀ k ∈ ps, k ∈ base.map Prod.fst) →
      ((kw.foldl (fun acc kv => dictInsert acc kv.1 (.obj kv.2)) base).map
          Prod.fst).filter (fun k => k ∈ ps) =
        (base.map Prod.fst).filter (fun k => k ∈ ps) := by
  intro kw
  induction kw with
  | nil => intro base _; rfl
  | cons kv rest ih =>
      intro base hbase
      rw [List.foldl_cons,
        ih _ (fun k hk => mem_keys_dictInsert_of_mem (hbase k hk))]
      rw [keys_dictInsert]
      by_cases hmem : kv.1 ∈ base.map Prod.fst
      · rw [if_pos hmem]
      · rw [if_neg hmem, List.filter_append]
        have hnp : kv.1 ∉ ps := fun hp => hmem (hbase kv.1 hp)
        simp [hnp]

theorem keys_nodup_kwfold :
    ∀ (kw : List (String × Option α)) (base : List (String × MergedVal α)),
      (base.map Prod.fst).Nodup →
      ((kw.foldl (fun acc kv => dictInsert acc kv.1 (.obj kv.2)) base).map
        Prod.fst).Nodup := by
  intro kw
  induction kw with
  | nil => intro base h; exact h
  | cons kv rest ih =>
      intro base hbase
      rw [List.foldl_cons]
      exact ih _ (keys_nodup_dictInsert hbase)

theorem length_kwfold_ge :
    ∀ (kw : List (String × Option α)) (base : List (String × MergedVal α)),
      base.length ≤
        (kw.foldl (fun acc kv => dictInsert acc kv.1 (.obj kv.2)) base).length := by
  intro kw
  induction kw with
  | nil => intro base; exact Nat.le_refl _
  | cons kv rest ih =>
      intro base
      rw [List.foldl_cons]
      exact Nat.le_trans (length_le_length_dictInsert base kv.1 (.obj kv.2)) (ih _)

theorem mem_keys_dictInsert_iff {β : Type u} {d : List (String × β)}
    {c k : String} {v : β} :
    c ∈ (dictInsert d k v).map Prod.fst ↔ c ∈ d.map Prod.fst ∨ c = k := by
  rw [keys_dictInsert]
  by_cases hk : k ∈ d.map Prod.fst
  · rw [if_pos hk]
    constructor
    · exact Or.inl
    · rintro (h | rfl)
      · exact h
      · exact hk
  · rw [if_neg hk]
    simp

theorem keys_filter_kwfold_disjoint (ps : List String) :
    ∀ (kw : List (String × Option α)) (base : List (String × MergedVal α)),
      (∀ k ∈ ps, k ∉ kw.map Prod.fst) →
      ((kw.foldl (fun acc kv => dictInsert acc kv.1 (.obj kv.2)) base).map
          Prod.fst).filter (fun k => k ∈ ps) =
        (base.map Prod.fst).filter (fun k => k ∈ ps) := by
  intro kw
  induction kw with
  | nil => intro base _; rfl
  | cons kv rest ih =>
      intro base hkw
      rw [List.foldl_cons,
        ih _ (fun k hk => fun hm =>
          hkw k hk (List.mem_cons_of_mem _ hm))]
      rw [keys_dictInsert]
      by_cases hmem : kv.1 ∈ base.map Prod.fst
      · rw [if_pos hmem]
      · rw [if_neg hmem, List.filter_append]
        have hnp : kv.1 ∉ ps := fun hp =>
          hkw kv.1 hp (List.mem_cons_self _ _)
        simp [hnp]

theorem dictGet_kwfold_not_mem {k : String} :
    ∀ (kw : List (String × Option α)) (base : List (String × MergedVal α)),
      k ∉ kw.map Prod.fst →
      dictGet (kw.foldl (fun acc kv => dictInsert acc kv.1 (.obj kv.2)) base) k =
        dictGet base k := by
  intro kw
  induction kw with
  | nil => intro base _; rfl
  | cons kv rest ih =>
      intro base hk
      rw [List.map_cons, List.mem_cons] at hk
      push_neg at hk
      rw [List.foldl_cons, ih _ hk.2, dictGet_dictInsert, if_neg hk.1]

end AdapterLemmas

/-- C9: for an empty dataset (an empty list or an empty DataFrame),
`_convert_to_legacy_eval_set` neither returns a result nor raises an
invalid-parameter error: sampling the first row (`df.iloc[0]`) fails with an
out-of-bounds indexing error before any column validation runs. -/
theorem c9_empty_dataset_index_error (jl : String → Value) (h : Heap)
    (cols' : List String) :
    _convert_to_legacy_eval_set jl h (.records []) = .error .indexError ∧
    _convert_to_legacy_eval_set jl h (.dataFrame ⟨cols', []⟩) =
      .error .indexError :=
  ⟨rfl, rfl⟩

/-- C8: for a list input, `_convert_to_legacy_eval_set` raises the
invalid-parameter error "Every item in the list must be a dictionary." when
some entry is not a dict; when every entry is a dict, the validation passes
and the conversion proceeds on the DataFrame built from the records. -/
theorem c8_list_validation (jl : String → Value) (h : Heap)
    (items : List Value) :
    ((∃ v ∈ items, ¬ v.isDict) →
      _convert_to_legacy_eval_set jl h (.records items) =
        .error (.invalidParameter listItemErrMsg)) ∧
    ((∀ v ∈ items, v.isDict) →
      _convert_to_legacy_eval_set jl h (.records items) =
        _convert_to_legacy_eval_set_from_df jl h (pdDataFrameOfRecords h items)) := by
  constructor
  · rintro ⟨v, hv, hbad⟩
    have hall : ¬ (items.all (fun v => v.isDict) = true) := by
      intro hall
      exact hbad (List.all_eq_true.mp hall v hv)
    show (if items.all (fun v => v.isDict) = true then
        _convert_to_legacy_eval_set_from_df jl h (pdDataFrameOfRecords h items)
      else Except.error (.invalidParameter listItemErrMsg)) = _
    rw [if_neg hall]
  · intro hgood
    have hall : items.all (fun v => v.isDict) = true :=
      List.all_eq_true.mpr hgood
    show (if items.all (fun v => v.isDict) = true then
        _convert_to_legacy_eval_set_from_df jl h (pdDataFrameOfRecords h items)
      else Except.error (.invalidParameter listItemErrMsg)) = _
    rw [if_pos hall]

/-- C8 witness: a list containing a string entry fails the validation, and a
one-record list of dicts proceeds to the DataFrame pipeline. -/
theorem c8_list_validation_witness :
    _convert_to_legacy_eval_set sampleDecoder [] (.records [Value.str "oops"]) =
      .error (.invalidParameter listItemErrMsg) ∧
    _convert_to_legacy_eval_set sampleDecoder
        [[("inputs", Value.ref 1)], [("q", Value.str "hi")]]
        (.records [Value.ref 0]) =
      _convert_to_legacy_eval_set_from_df sampleDecoder
        [[("inputs", Value.ref 1)], [("q", Value.str "hi")]]
        (pdDataFrameOfRecords [[("inputs", Value.ref 1)], [("q", Value.str "hi")]]
          [Value.ref 0]) :=
  ⟨(c8_list_validation sampleDecoder [] [Value.str "oops"]).1
      ⟨Value.str "oops", by simp, by simp [Value.isDict]⟩,
   (c8_list_validation sampleDecoder
        [[("inputs", Value.ref 1)], [("q", Value.str "hi")]] [Value.ref 0]).2
      (by
        intro v hv
        simp only [List.mem_singleton] at hv
        subst hv
        rfl)⟩

/-- C1 (counterexample): applying the conversion to the already-normalized
single-row dataset with `request`/`response` columns is not a no-op — it
raises the invalid-parameter error demanding an `inputs` or `trace` column. -/
theorem c1_roundtrip_counterexample :
    _convert_to_legacy_eval_set sampleDecoder [] (.dataFrame c1df) =
      .error (.invalidParameter missingColumnErrMsg) := rfl

/-- C1 (amended): for every nonempty dataset already in normalized form (no
`inputs` and no `trace` column), `_convert_to_legacy_eval_set` raises the
invalid-parameter error requiring an `inputs` or `trace` column instead of
returning the data; the transformation stages themselves (rename and the
three pipe stages) do leave such data unchanged. -/
theorem c1_already_normalized_raises (jl : String → Value) (h : Heap)
    (df : DataFrame) (hne : df.rows ≠ []) (hni : "inputs" ∉ df.cols)
    (hnt : "trace" ∉ df.cols) :
    _convert_to_legacy_eval_set jl h (.dataFrame df) =
      .error (.invalidParameter missingColumnErrMsg) ∧
    ("outputs" ∉ df.cols → "expectations" ∉ df.cols →
      (∀ r ∈ df.rows, ∀ kv ∈ r, kv.1 ∈ df.cols) →
      transformStages jl h df = .ok (df, h)) := by
  constructor
  · show _convert_to_legacy_eval_set_from_df jl h df = _
    unfold _convert_to_legacy_eval_set_from_df
    cases hrows : df.rows with
    | nil => exact absurd hrows hne
    | cons sample tail =>
        have h1 : ¬ ("inputs" ∈ df.cols ∧ ¬ (rowGet sample "inputs").isDict = true) :=
          fun hcon => hni hcon.1
        have h2 : ¬ ("trace" ∈ df.cols ∨ "inputs" ∈ df.cols) :=
          fun hcon => hcon.elim hnt hni
        show (if "inputs" ∈ df.cols ∧ ¬ (rowGet sample "inputs").isDict = true then
            Except.error (EvalError.invalidParameter inputsNotDictErrMsg)
          else if ¬ ("trace" ∈ df.cols ∨ "inputs" ∈ df.cols) then
            Except.error (EvalError.invalidParameter missingColumnErrMsg)
          else transformStages jl h df) = _
        rw [if_neg h1, if_pos h2]
  · intro ho hexp hwf
    unfold transformStages
    rw [rename_eq_self hni ho hwf, extract_request_no_trace jl hnt]
    simp only [extract_expectations_no_trace h hnt]
    exact flatten_no_expectations h hexp

/-- C1 witness: the amended claim at the concrete already-normalized
dataset. -/
theorem c1_already_normalized_witness :
    _convert_to_legacy_eval_set sampleDecoder [] (.dataFrame c1df) =
      .error (.invalidParameter missingColumnErrMsg) ∧
    transformStages sampleDecoder [] c1df = .ok (c1df, []) := by
  have h := c1_already_normalized_raises sampleDecoder [] c1df
    (by simp [c1df]) (by decide) (by decide)
  refine ⟨h.1, h.2 (by decide) (by decide) ?_⟩
  intro r hr kv hkv
  simp only [c1df, List.mem_singleton] at hr
  subst hr
  rcases List.mem_cons.mp hkv with rfl | hkv'
  · decide
  · rcases List.mem_cons.mp hkv' with rfl | hkv''
    · decide
    · simp at hkv''

/-- C7 (counterexample): a row whose expectation value is the two-element
list `[1, 2]` is neither a mapping nor null, yet flattening does not raise
the invalid-parameter error: `pd.isna(value)` is an elementwise boolean
array there, and its truth test in the `elif` raises `ValueError` first. -/
theorem c7_list_valueerror_counterexample :
    (Value.pylist [Value.int 1, Value.int 2]).isDict = false ∧
    c7listdf.getCell 0 "expectations" = Value.pylist [Value.int 1, Value.int 2] ∧
    _convert_expectations_to_legacy_columns [] c7listdf = .error .valueError :=
  ⟨rfl, rfl, rfl⟩

/-- C7 (amended): for a dataset with an `expectations` column none of whose
values is a list, the flattening stage raises the invalid-parameter error
if and only if some row's expectation value is neither a dict nor the null
marker; when every row's value is a dict or null, flattening succeeds (dict
rows are flattened, null rows are skipped).  A list-valued cell follows
pandas' elementwise `isna` instead: unless its array form has exactly one
element, the `elif` truth test raises `ValueError`; a one-element list is
skipped when that element is null and raises the invalid-parameter error
otherwise. -/
theorem c7_flatten_error_iff (h : Heap) (df : DataFrame)
    (hexp : "expectations" ∈ df.cols)
    (hnl : ∀ r ∈ df.rows, ∀ vs, rowGet r "expectations" ≠ .pylist vs) :
    (_convert_expectations_to_legacy_columns h df =
        .error (.invalidParameter expectationsErrMsg) ↔
      ∃ r ∈ df.rows, ¬ (rowGet r "expectations").isDict ∧
        rowGet r "expectations" ≠ .null) ∧
    ((∀ r ∈ df.rows, (rowGet r "expectations").isDict ∨
        rowGet r "expectations" = .null) →
      ∃ st, _convert_expectations_to_legacy_columns h df = .ok st) ∧
    (∀ (st : DataFrame × Heap) (i : Nat) (vs : List Value),
      naSizeList vs ≠ 1 → flattenRow st i (.pylist vs) = .error .valueError) ∧
    (∀ (st : DataFrame × Heap) (i : Nat) (vs : List Value),
      naSizeList vs = 1 → nullCountList vs = 1 →
      flattenRow st i (.pylist vs) = .ok st) ∧
    (∀ (st : DataFrame × Heap) (i : Nat) (vs : List Value),
      naSizeList vs = 1 → nullCountList vs ≠ 1 →
      flattenRow st i (.pylist vs) =
        .error (.invalidParameter expectationsErrMsg)) := by
  have hcellsEq : (nullInitFrame df).rows.map (fun r => rowGet r "expectations") =
      df.rows.map (fun r => rowGet r "expectations") :=
    setColConst_fold_cells _ df _ expectations_not_mem_fields
  have hok : (∀ r ∈ df.rows, (rowGet r "expectations").isDict ∨
      rowGet r "expectations" = .null) →
      ∃ st, _convert_expectations_to_legacy_columns h df = .ok st := by
    intro hgood
    obtain ⟨st', hst'⟩ := flattenLoop_ok_of_good
      (df.rows.map (fun r => rowGet r "expectations")) 0
      (nullInitFrame df, h)
      (by
        intro v hv
        rw [List.mem_map] at hv
        obtain ⟨r, hr, rfl⟩ := hv
        exact hgood r hr)
    refine ⟨(st'.1.dropCol "expectations", st'.2), ?_⟩
    unfold _convert_expectations_to_legacy_columns
    rw [if_pos hexp, hcellsEq, hst']
  refine ⟨?_, hok, ?_, ?_, ?_⟩
  · constructor
    · intro herr
      by_cases hgood : ∀ r ∈ df.rows, (rowGet r "expectations").isDict ∨
          rowGet r "expectations" = .null
      · obtain ⟨st, hst⟩ := hok hgood
        rw [hst] at herr
        cases herr
      · push_neg at hgood
        obtain ⟨r, hr, hprop⟩ := hgood
        exact ⟨r, hr, hprop.1, hprop.2⟩
    · rintro ⟨r, hr, hbad, hnn⟩
      have hloop := flattenLoop_error_of_bad
        (df.rows.map (fun r => rowGet r "expectations")) 0
        (nullInitFrame df, h)
        (by
          intro v hv vs
          rw [List.mem_map] at hv
          obtain ⟨r0, hr0, rfl⟩ := hv
          exact hnl r0 hr0 vs)
        ⟨rowGet r "expectations", List.mem_map.mpr ⟨r, hr, rfl⟩, hbad, hnn⟩
      unfold _convert_expectations_to_legacy_columns
      rw [if_pos hexp, hcellsEq, hloop]
  · intro st i vs hsz
    show (match pdIsNaTruth (Value.pylist vs) with
      | some true => Except.ok st
      | some false => Except.error (EvalError.invalidParameter expectationsErrMsg)
      | none => Except.error EvalError.valueError) = _
    rw [show pdIsNaTruth (Value.pylist vs) = none by simp [pdIsNaTruth, hsz]]
  · intro st i vs hsz hnc
    show (match pdIsNaTruth (Value.pylist vs) with
      | some true => Except.ok st
      | some false => Except.error (EvalError.invalidParameter expectationsErrMsg)
      | none => Except.error EvalError.valueError) = _
    rw [show pdIsNaTruth (Value.pylist vs) = some true by
      simp [pdIsNaTruth, hsz, hnc]]
  · intro st i vs hsz hnc
    show (match pdIsNaTruth (Value.pylist vs) with
      | some true => Except.ok st
      | some false => Except.error (EvalError.invalidParameter expectationsErrMsg)
      | none => Except.error EvalError.valueError) = _
    rw [show pdIsNaTruth (Value.pylist vs) = some false by
      simp [pdIsNaTruth, hsz, hnc]]

/-- C7 witness: a frame with an integer expectation raises the error, the
same frame with the value replaced by null flattens successfully, and a
two-element list cell makes the per-row step raise `ValueError`. -/
theorem c7_flatten_error_iff_witness :
    _convert_expectations_to_legacy_columns [] c7df =
      .error (.invalidParameter expectationsErrMsg) ∧
    (∃ st, _convert_expectations_to_legacy_columns []
      (⟨["expectations"], [[("expectations", Value.null)]]⟩ : DataFrame) = .ok st) ∧
    flattenRow (⟨["expectations"], [[("expectations", Value.null)]]⟩, []) 0
      (.pylist [Value.int 1, Value.int 2]) = .error .valueError := by
  have hnl3 : ∀ r ∈ c7df.rows, ∀ vs, rowGet r "expectations" ≠ Value.pylist vs := by
    intro r hr vs
    simp only [c7df, List.mem_singleton] at hr
    subst hr
    intro hcon
    cases hcon
  refine ⟨?_, ?_, ?_⟩
  · refine (c7_flatten_error_iff [] c7df (by decide) hnl3).1.mpr ?_
    refine ⟨[("expectations", Value.int 3)], by simp [c7df], ?_, ?_⟩
    · simp [rowGet, dictGet, Value.isDict]
    · intro hcon
      simp [rowGet, dictGet] at hcon
  · refine (c7_flatten_error_iff [] _ (by decide) ?_).2.1 ?_
    · intro r hr vs
      simp only [List.mem_singleton] at hr
      subst hr
      intro hcon
      cases hcon
    · intro r hr
      simp only [List.mem_singleton] at hr
      subst hr
      right
      rfl
  · exact (c7_flatten_error_iff [] c7df (by decide) hnl3).2.2.1 _ 0
      [Value.int 1, Value.int 2] (by decide)

/-- C2 (counterexample): for a scorer declaring exactly the parameters
`request` and `response`, the adapter's filtered keyword arguments are empty
— the merged context keys are `inputs`/`outputs`, not `request`/`response` —
so the scorer is not invoked with those two arguments. -/
theorem c2_request_response_counterexample :
    filteredScorerArgs argsAllNone ["request", "response"] = [] := rfl

/-- C2 (amended): the adapter filters the merged context by the scorer's
declared parameter names — a scorer declaring exactly `inputs` and `outputs`
is invoked with exactly those two keyword arguments, taken from the merged
context, even though the merged context has at least a dozen keys; a scorer
declaring `request` and `response` instead receives none of them, since
those names are never merged-context keys. -/
theorem c2_scorer_param_filtering {α : Type u} (a : EvalFnArgs α)
    (hkw : "request" ∉ a.kwargs.map Prod.fst ∧
      "response" ∉ a.kwargs.map Prod.fst) :
    (filteredScorerArgs a ["inputs", "outputs"]).map Prod.fst =
      ["inputs", "outputs"] ∧
    12 ≤ (mergedContext a).length ∧
    (∀ k v, (k, v) ∈ filteredScorerArgs a ["inputs", "outputs"] →
      dictGet (mergedContext a) k = some v) ∧
    (filteredScorerArgs a ["request", "response"]).map Prod.fst = [] := by
  have hnodup : ((mergedContext a).map Prod.fst).Nodup := by
    refine keys_nodup_kwfold a.kwargs (mergedBase a) ?_
    rw [mergedBase_keys]
    decide
  refine ⟨?_, ?_, ?_, ?_⟩
  · unfold filteredScorerArgs
    rw [map_fst_filter_keys]
    unfold mergedContext
    rw [keys_filter_kwfold _ a.kwargs (mergedBase a) ?_]
    · rw [mergedBase_keys]
      decide
    · intro k hk
      rw [mergedBase_keys]
      simp only [List.mem_cons, List.not_mem_nil, or_false] at hk
      rcases hk with rfl | rfl <;> decide
  · calc (12 : Nat) = (mergedBase a).length := rfl
      _ ≤ (mergedContext a).length := length_kwfold_ge a.kwargs (mergedBase a)
  · intro k v hkv
    exact dictGet_eq_of_mem_nodup (List.mem_of_mem_filter hkv) hnodup
  · unfold filteredScorerArgs
    rw [map_fst_filter_keys]
    unfold mergedContext
    rw [keys_filter_kwfold_disjoint _ a.kwargs (mergedBase a) ?_]
    · rw [mergedBase_keys]
      decide
    · intro k hk
      simp only [List.mem_cons, List.not_mem_nil, or_false] at hk
      rcases hk with rfl | rfl
      · exact hkw.1
      · exact hkw.2

/-- C2 witness: the amended claim at concrete all-`None` arguments. -/
theorem c2_scorer_param_filtering_witness :
    (filteredScorerArgs argsAllNone ["inputs", "outputs"]).map Prod.fst =
      ["inputs", "outputs"] ∧
    dictGet (mergedContext argsAllNone) "inputs" = some (.obj none) :=
  ⟨(c2_scorer_param_filtering argsAllNone ⟨by decide, by decide⟩).1,
   (c2_scorer_param_filtering argsAllNone ⟨by decide, by decide⟩).2.2.1 "inputs"
     (.obj none) (by decide)⟩

/-- C10 (counterexample): an invocation whose extra keyword arguments bind
`expectations` to Python `None` makes the merged context's `expectations`
entry `None`, so a scorer declaring an `expectations` parameter receives
`None`, not a dict. -/
theorem c10_kwargs_none_counterexample :
    filteredScorerArgs kwargsNoneArgs ["expectations"] =
      [("expectations", MergedVal.obj none)] := rfl

/-- C10 (amended): provided the extra keyword arguments do not themselves
bind an `expectations` key, the `expectations` entry of the merged context
is always the condensed expectations dict — the empty dict when
expected_response, expected_facts, expected_retrieved_context, guidelines
and custom_expected are all `None` — and a scorer declaring an
`expectations` parameter receives that dict. -/
theorem c10_expectations_entry_dict {α : Type u} (a : EvalFnArgs α)
    (hk : "expectations" ∉ a.kwargs.map Prod.fst) :
    dictGet (mergedContext a) "expectations" =
      some (.dictObj (some (condenseExpectations a))) ∧
    (a.expected_response = none → a.expected_facts = none →
      a.expected_retrieved_context = none → a.guidelines = none →
      a.custom_expected = none → condenseExpectations a = []) ∧
    (∀ params, "expectations" ∈ params →
      ("expectations", MergedVal.dictObj (some (condenseExpectations a))) ∈
        filteredScorerArgs a params) := by
  have hget : dictGet (mergedContext a) "expectations" =
      some (.dictObj (some (condenseExpectations a))) := by
    unfold mergedContext
    rw [dictGet_kwfold_not_mem a.kwargs (mergedBase a) hk]
    unfold mergedBase
    rw [dictGet_cons_ne (show "inputs" ≠ "expectations" by decide),
      dictGet_cons_ne (show "outputs" ≠ "expectations" by decide),
      dictGet_cons_self]
  refine ⟨hget, ?_, ?_⟩
  · intro h1 h2 h3 h4 h5
    simp only [condenseExpectations, h1, h2, h3, h4, h5]
  · intro params hp
    exact List.mem_filter.mpr ⟨mem_of_dictGet_some hget, by simpa using hp⟩

/-- C10 witness: the amended claim at concrete all-`None` arguments, where
the scorer declaring `expectations` receives the empty dict. -/
theorem c10_expectations_entry_dict_witness :
    dictGet (mergedContext argsAllNone) "expectations" =
      some (.dictObj (some ([] : List (String × Nat)))) ∧
    ("expectations", MergedVal.dictObj (some ([] : List (String × Nat)))) ∈
      filteredScorerArgs argsAllNone ["expectations"] := by
  have h := c10_expectations_entry_dict argsAllNone (by decide)
  have hempty : condenseExpectations argsAllNone = [] :=
    h.2.1 rfl rfl rfl rfl rfl
  exact ⟨by rw [← hempty]; exact h.1,
    by rw [← hempty]; exact h.2.2 ["expectations"] (by decide)⟩

/-- C4: the condensed `expectations` mapping equals the dictionary built by
inserting, in order, expected_response, expected_facts,
expected_retrieved_context and guidelines — each under its reserved key,
only when non-null — and then updating with the custom-expected mapping;
on a key collision the custom-expected entry wins. -/
theorem c4_expectations_merge {α : Type u} (a : EvalFnArgs α) :
    condenseExpectations a = claimExpectations a ∧
    (∀ c, a.custom_expected = some c → (c.map Prod.fst).Nodup →
      ∀ k v, (k, v) ∈ c → dictGet (condenseExpectations a) k = some v) := by
  constructor
  · unfold condenseExpectations claimExpectations optInsert
    cases a.custom_expected <;> rfl
  · intro c hc hnd k v hkv
    have huniq : ∀ v', (k, v') ∈ c → v' = v := by
      intro v' hv'
      have h1 := dictGet_eq_of_mem_nodup hv' hnd
      rw [dictGet_eq_of_mem_nodup hkv hnd] at h1
      exact (Option.some.injEq _ _ ▸ h1).symm
    simp only [condenseExpectations, hc]
    rw [dictGet_dictUpdate, lastVal_eq_of_unique hkv huniq]

/-- C5: for a dataset with a `trace` column (and no `expectations` column),
`_extract_expectations_from_trace` builds, per row, the mapping from
assessment name to expectation value over exactly those assessments whose
expectation is non-null; if this mapping is empty for every row, the
`expectations` column is not added at all (the frame and heap come back
unchanged), otherwise each row's cell references a freshly allocated dict
holding its mapping. -/
theorem c5_extract_expectations (h : Heap) (df : DataFrame)
    (htr : "trace" ∈ df.cols) (hexp : "expectations" ∉ df.cols) :
    ((∀ r ∈ df.rows, buildExpMap (traceAssessments (rowGet r "trace")) = []) →
      _extract_expectations_from_trace h df = (df, h)) ∧
    ((∃ r ∈ df.rows, buildExpMap (traceAssessments (rowGet r "trace")) ≠ []) →
      ∀ i, i < df.rows.length →
        (_extract_expectations_from_trace h df).1.getCell i "expectations" =
          .ref (h.length + i) ∧
        (_extract_expectations_from_trace h df).2.get (h.length + i) =
          buildExpMap (traceAssessments (rowGet (df.rows.getD i []) "trace"))) ∧
    (∀ asmts n, (dictGet (buildExpMap asmts) n).isSome ↔
      ∃ v, (n, some v) ∈ asmts) := by
  refine ⟨?_, ?_, fun asmts n => dictGet_buildExpMap_isSome_iff asmts n⟩
  · intro hall
    refine extract_expectations_all_empty h htr ?_
    refine List.all_eq_true.mpr ?_
    intro m hm
    rw [List.mem_map] at hm
    obtain ⟨r, hr, rfl⟩ := hm
    rw [hall r hr]
    rfl
  · intro hne i hi
    have hnall : ¬ ((df.rows.map
        (fun r => buildExpMap (traceAssessments (rowGet r "trace")))).all
        (fun m => m.isEmpty) = true) := by
      intro hall
      obtain ⟨r, hr, hbad⟩ := hne
      have := List.all_eq_true.mp hall _ (List.mem_map.mpr ⟨r, hr, rfl⟩)
      exact hbad (List.isEmpty_iff.mp this)
    rw [extract_expectations_nonempty h htr hnall]
    have hlenv : ((List.range df.rows.length).map
        (fun i => Value.ref (h.length + i))).length = df.rows.length := by
      rw [List.length_map, List.length_range]
    constructor
    · rw [getCell_setCol_self hi (by omega)]
      rw [List.getD_eq_getElem _ _ (by omega), List.getElem_map,
        List.getElem_range]
    · rw [Heap.get_append_right]
      rw [List.getD_eq_getElem _ _ (by simpa using hi), List.getElem_map]
      congr 1
      rw [List.getD_eq_getElem _ _ hi]

/-- C5 witness: a single-row frame whose trace has one null-expectation
assessment and one kept assessment. -/
theorem c5_extract_expectations_witness :
    (_extract_expectations_from_trace [] c5df).1.getCell 0 "expectations" =
      .ref 0 ∧
    (_extract_expectations_from_trace [] c5df).2.get 0 =
      [("expected_response", Value.str "yes")] ∧
    ((dictGet (buildExpMap [("expected_response", some (Value.str "yes")),
        ("skipped", (none : Option Value))]) "skipped").isSome ↔
      ∃ v, ("skipped", some v) ∈
        [("expected_response", some (Value.str "yes")),
         ("skipped", (none : Option Value))]) := by
  have h := c5_extract_expectations [] c5df (by decide) (by decide)
  have hinst := h.2.1 ?_ 0 (by simp [c5df])
  · refine ⟨hinst.1, ?_, h.2.2 _ "skipped"⟩
    exact hinst.2
  · refine ⟨[("trace", Value.pytrace "r"
      [("expected_response", some (Value.str "yes")), ("skipped", none)])],
      by simp [c5df], ?_⟩
    intro hcon
    have : dictGet (buildExpMap (traceAssessments (rowGet
        [("trace", Value.pytrace "r"
          [("expected_response", some (Value.str "yes")), ("skipped", none)])]
        "trace"))) "expected_response" = some (Value.str "yes") := rfl
    rw [hcon] at this
    cases this

/-- C6: for a nonempty dataset whose every trace carries exactly one
assessment named `expected_response`, with expectation value `"yes"`, the
extract-then-flatten stages produce a frame whose `expected_response`
column equals `"yes"` at every row and which has no leftover `expectations`
column. -/
theorem c6_expected_response_flattening (h : Heap) (df : DataFrame)
    (htr : "trace" ∈ df.cols) (hne : df.rows ≠ [])
    (hasmt : ∀ r ∈ df.rows,
      ("expected_response", some (Value.str "yes")) ∈
        traceAssessments (rowGet r "trace") ∧
      ∀ e, ("expected_response", e) ∈ traceAssessments (rowGet r "trace") →
        e = some (Value.str "yes")) :
    ∃ df' h',
      _convert_expectations_to_legacy_columns
        (_extract_expectations_from_trace h df).2
        (_extract_expectations_from_trace h df).1 = .ok (df', h') ∧
      (∀ i, i < df.rows.length → df'.getCell i "expected_response" =
        .str "yes") ∧
      "expectations" ∉ df'.cols := by
  have hlookup : ∀ r ∈ df.rows,
      dictGet (buildExpMap (traceAssessments (rowGet r "trace")))
        "expected_response" = some (Value.str "yes") := by
    intro r hr
    exact dictGet_buildExpMap_eq_of_unique (hasmt r hr).1 (hasmt r hr).2
  have hnall : ¬ ((df.rows.map
      (fun r => buildExpMap (traceAssessments (rowGet r "trace")))).all
      (fun m => m.isEmpty) = true) := by
    intro hall
    obtain ⟨r0, hr0⟩ : ∃ r0, r0 ∈ df.rows := by
      cases hrows : df.rows with
      | nil => exact absurd hrows hne
      | cons r0 tl => exact ⟨r0, List.mem_cons_self _ _⟩
    have hemp := List.all_eq_true.mp hall _ (List.mem_map.mpr ⟨r0, hr0, rfl⟩)
    have := hlookup r0 hr0
    rw [List.isEmpty_iff.mp hemp] at this
    cases this
  have hextract := extract_expectations_nonempty h htr hnall
  set n := df.rows.length with hn
  set ms := df.rows.map
    (fun r => buildExpMap (traceAssessments (rowGet r "trace"))) with hms
  set refs := (List.range n).map (fun i => Value.ref (h.length + i)) with hrefs
  have hreflen : refs.length = n := by
    rw [hrefs, List.length_map, List.length_range]
  have hmslen : ms.length = n := by rw [hms, List.length_map]
  set df1 := df.setCol "expectations" refs with hdf1
  have hrows1 : df1.rows.length = n := by
    rw [hdf1]
    exact rows_length_setCol (by rw [hreflen])
  have hcells1 : df1.rows.map (fun r => rowGet r "expectations") = refs := by
    rw [hdf1]
    exact cells_setCol_self df.rows refs "expectations" (by rw [hreflen])
  have hrefget : ∀ i, i < n → refs.getD i .null = Value.ref (h.length + i) := by
    intro i hi
    rw [hrefs, List.getD_eq_getElem _ _ (by simpa [List.length_range] using hi),
      List.getElem_map, List.getElem_range]
  obtain ⟨df', h', hflat, hlen', hheap', hframe', hnocol, hrows', hresv⟩ :=
    flatten_spec (h ++ ms) df1
      (by
        rw [hdf1]
        exact (mem_cols_setCol refs).mpr (Or.inr rfl))
      (by
        intro r hr
        have hmem : rowGet r "expectations" ∈ refs := by
          rw [← hcells1]
          exact List.mem_map.mpr ⟨r, hr, rfl⟩
        rw [hrefs] at hmem
        rw [List.mem_map] at hmem
        obtain ⟨i, hi, hrefi⟩ := hmem
        rw [List.mem_range] at hi
        refine Or.inr ⟨h.length + i, hrefi.symm, ?_⟩
        rw [List.length_append, hmslen]
        omega)
      (by
        rw [hcells1, hrefs, List.pairwise_map]
        refine List.Pairwise.imp ?_ (List.pairwise_lt_range n)
        intro i j hij a b ha hb
        rw [Value.ref.injEq] at ha hb
        omega)
  rw [hextract]
  refine ⟨df', h', hflat, ?_, hnocol⟩
  intro i hi
  have hcd : (df1.rows.map (fun r => rowGet r "expectations")).getD i .null =
      Value.ref (h.length + i) := by
    rw [hcells1]
    exact hrefget i hi
  have hres := hresv i (h.length + i) hcd (by omega) "expected_response"
    (by decide)
  rw [hres, Heap.get_append_right]
  have hmsd : ms.getD i [] =
      buildExpMap (traceAssessments (rowGet (df.rows.getD i []) "trace")) := by
    rw [hms, List.getD_eq_getElem _ _ (by simpa using hi), List.getElem_map]
    congr 1
    rw [List.getD_eq_getElem _ _ hi]
  rw [hmsd, hlookup _ (by
    rw [List.getD_eq_getElem _ _ hi]
    exact List.getElem_mem hi)]
  rfl

/-- C6 witness: the two-row trace dataset, both rows flattened to
`expected_response = "yes"` with the intermediate column dropped. -/
theorem c6_expected_response_flattening_witness :
    ∃ df' h',
      _convert_expectations_to_legacy_columns
        (_extract_expectations_from_trace [] c6df).2
        (_extract_expectations_from_trace [] c6df).1 = .ok (df', h') ∧
      (∀ i, i < c6df.rows.length → df'.getCell i "expected_response" =
        .str "yes") ∧
      "expectations" ∉ df'.cols := by
  refine c6_expected_response_flattening [] c6df (by decide)
    (by simp [c6df]) ?_
  intro r hr
  simp only [c6df, List.mem_cons, List.not_mem_nil, or_false] at hr
  rcases hr with rfl | rfl
  · refine ⟨?_, ?_⟩
    · show ("expected_response", some (Value.str "yes")) ∈
        ([("expected_response", some (Value.str "yes")),
          ("extra", some (Value.int 7))] : List (String × Option Value))
      exact List.mem_cons_self _ _
    · intro e he
      have he' : ("expected_response", e) ∈
          ([("expected_response", some (Value.str "yes")),
            ("extra", some (Value.int 7))] : List (String × Option Value)) := he
      rcases List.mem_cons.mp he' with heq | hrest
      · rw [Prod.mk.injEq] at heq
        exact heq.2
      · rw [List.mem_singleton, Prod.mk.injEq] at hrest
        exact absurd hrest.1 (by decide)
  · refine ⟨?_, ?_⟩
    · show ("expected_response", some (Value.str "yes")) ∈
        ([("expected_response", some (Value.str "yes"))] :
          List (String × Option Value))
      exact List.mem_cons_self _ _
    · intro e he
      have he' : ("expected_response", e) ∈
          ([("expected_response", some (Value.str "yes"))] :
            List (String × Option Value)) := he
      rw [List.mem_singleton, Prod.mk.injEq] at he'
      exact he'.2

/-- C3 (counterexample): converting a DataFrame whose `expectations` column
holds the caller's dict object (heap address 1, contents
`{"expected_response": "x"}`) succeeds, but the final heap shows that dict
drained to `{}` — the caller's nested dict was mutated in place by
`value.pop`, even though the frame itself was copied. -/
theorem c3_caller_dict_mutation_counterexample :
    c3heap.get 1 = [("expected_response", Value.str "x")] ∧
    c3df.getCell 0 "expectations" = Value.ref 1 ∧
    _convert_to_legacy_eval_set sampleDecoder c3heap (.dataFrame c3df) =
      .ok (⟨["request", "expected_response", "expected_facts",
             "expected_retrieved_context", "guidelines", "custom_expected"],
            [[("request", Value.ref 0), ("expected_response", Value.str "x"),
              ("expected_facts", Value.null),
              ("expected_retrieved_context", Value.null),
              ("guidelines", Value.null), ("custom_expected", Value.null)]]⟩,
           [[("q", Value.str "hi")], []]) :=
  ⟨rfl, rfl, rfl⟩

/-- C3 (amended): the conversion never mutates the caller's frame structure
(it operates on a copy), but the nested per-row dict objects shared through
the `expectations` column are mutated in place: for a dataset without a
`trace` column, every dict referenced by an `expectations` cell has its
reserved keys popped in the final heap, while unreferenced dict objects are
untouched and no heap entry is added or removed. -/
theorem c3_shared_expectation_dicts_mutated (jl : String → Value) (h : Heap)
    (df : DataFrame) (hne : df.rows ≠ []) (hinp : "inputs" ∈ df.cols)
    (hfirst : (rowGet (df.rows.getD 0 []) "inputs").isDict)
    (hnt : "trace" ∉ df.cols) (hexp : "expectations" ∈ df.cols)
    (hcells : ∀ r ∈ df.rows, rowGet r "expectations" = .null ∨
      ∃ a, rowGet r "expectations" = .ref a ∧ a < h.length)
    (hdisj : (df.rows.map (fun r => rowGet r "expectations")).Pairwise
      (fun v w => ∀ a b, v = .ref a → w = .ref b → a ≠ b)) :
    ∃ df' h', _convert_to_legacy_eval_set jl h (.dataFrame df) =
        .ok (df', h') ∧
      h'.length = h.length ∧
      (∀ j a, (df.rows.map (fun r => rowGet r "expectations")).getD j .null =
          .ref a → h'.get a = popAllReserved (h.get a)) ∧
      (∀ a, (∀ r ∈ df.rows, rowGet r "expectations" ≠ .ref a) →
        h'.get a = h.get a) := by
  have hnt1 : "trace" ∉ df.rename.cols := by
    rw [mem_cols_rename_iff (by decide) (by decide) (by decide) (by decide)]
    exact hnt
  have hexp1 : "expectations" ∈ df.rename.cols := by
    rw [mem_cols_rename_iff (by decide) (by decide) (by decide) (by decide)]
    exact hexp
  have hcellsEq : df.rename.rows.map (fun r => rowGet r "expectations") =
      df.rows.map (fun r => rowGet r "expectations") :=
    cells_rename df (by decide) (by decide) (by decide) (by decide)
  obtain ⟨df', h', hflat, hlen, hheap, hframe, _, _, _⟩ :=
    flatten_spec h df.rename hexp1
      (by
        intro r hr
        show rowGet r "expectations" = Value.null ∨ _
        have hmem : rowGet r "expectations" ∈
            df.rows.map (fun r => rowGet r "expectations") := by
          rw [← hcellsEq]
          exact List.mem_map.mpr ⟨r, hr, rfl⟩
        rw [List.mem_map] at hmem
        obtain ⟨r0, hr0, hrq⟩ := hmem
        rw [← hrq]
        exact hcells r0 hr0)
      (by rw [hcellsEq]; exact hdisj)
  refine ⟨df', h', ?_, hlen, ?_, ?_⟩
  · show _convert_to_legacy_eval_set_from_df jl h df = _
    unfold _convert_to_legacy_eval_set_from_df
    cases hrows : df.rows with
    | nil => exact absurd hrows hne
    | cons sample tail =>
        have hfirst' : (rowGet sample "inputs").isDict = true := by
          have : df.rows.getD 0 [] = sample := by rw [hrows]; rfl
          rwa [this] at hfirst
        have h1 : ¬ ("inputs" ∈ df.cols ∧
            ¬ (rowGet sample "inputs").isDict = true) :=
          fun hcon => hcon.2 hfirst'
        have h2 : ¬ ¬ ("trace" ∈ df.cols ∨ "inputs" ∈ df.cols) :=
          fun hcon => hcon (Or.inr hinp)
        show (if "inputs" ∈ df.cols ∧ ¬ (rowGet sample "inputs").isDict = true then
            Except.error (EvalError.invalidParameter inputsNotDictErrMsg)
          else if ¬ ("trace" ∈ df.cols ∨ "inputs" ∈ df.cols) then
            Except.error (EvalError.invalidParameter missingColumnErrMsg)
          else transformStages jl h df) = _
        rw [if_neg h1, if_neg h2]
        unfold transformStages
        rw [extract_request_no_trace jl hnt1]
        simp only [extract_expectations_no_trace h hnt1]
        exact hflat
  · intro j a hj
    refine hheap j a ?_
    rw [hcellsEq]
    exact hj
  · intro a hna
    refine hframe a ?_
    intro r hr
    have hmem : rowGet r "expectations" ∈
        df.rows.map (fun r => rowGet r "expectations") := by
      rw [← hcellsEq]
      exact List.mem_map.mpr ⟨r, hr, rfl⟩
    rw [List.mem_map] at hmem
    obtain ⟨r0, hr0, hrq⟩ := hmem
    rw [← hrq]
    exact hna r0 hr0

/-- C3 witness: the amended claim at the concrete shared-dict dataset — the
caller's dict at address 1 loses its reserved key, the other dict is
untouched, and the heap keeps its size. -/
theorem c3_shared_expectation_dicts_witness :
    ∃ df' h', _convert_to_legacy_eval_set sampleDecoder c3heap
        (.dataFrame c3df) = .ok (df', h') ∧
      h'.length = c3heap.length ∧
      (∀ j a, (c3df.rows.map (fun r => rowGet r "expectations")).getD j .null =
          .ref a → h'.get a = popAllReserved (c3heap.get a)) ∧
      (∀ a, (∀ r ∈ c3df.rows, rowGet r "expectations" ≠ .ref a) →
        h'.get a = c3heap.get a) := by
  refine c3_shared_expectation_dicts_mutated sampleDecoder c3heap c3df
    (by simp [c3df]) (by decide) rfl (by decide) (by decide) ?_ ?_
  · intro r hr
    simp only [c3df, List.mem_singleton] at hr
    subst hr
    exact Or.inr ⟨1, rfl, by decide⟩
  · show List.Pairwise _ [rowGet _ "expectations"]
    exact List.pairwise_singleton _ _

/-- C4 witness: with a discrete expected response and a colliding
custom-expected entry, the custom value wins. -/
theorem c4_expectations_merge_witness :
    condenseExpectations c4args = claimExpectations c4args ∧
    dictGet (condenseExpectations c4args) "expected_response" = some 5 :=
  ⟨(c4_expectations_merge c4args).1,
   (c4_expectations_merge c4args).2 [("expected_response", 5), ("k", 2)] rfl
     (by decide) "expected_response" 5 (by decide)⟩
